import Mathlib

/-!
Verification model of the markdown-editor selection-preserving transform engine.

The text-buffer collaborator of spec §6 (a CodeMirror editor) is modelled as a
list of newline-free lines together with `(line, ch)` positions, ranges with an
`anchor`/`head` pair, a line-splicing `replaceRange`, and a `setSelections`
that clips positions into the document (as the real collaborator does).
JavaScript mutates the `anchor`/`head` objects through the aliases returned by
`Range.from()`/`Range.to()`, which re-resolve on every call; the model mirrors
that with `updFrom`/`updTo`, which re-resolve on every application.

The two source editions are embedded separately:
`SrcEd`  — src/src/markdown-editor.ts      (class MarkdownEditor),
`LibEd`  — src/lib/src/markdown-editor.ts  (class MarkdownEditorBase).
Each engine operation takes the document and the current selection list
(`cm.listSelections()`) and returns the mutated document together with the
selection list installed by its final `cm.setSelections(...)` call (operations
that do not call `setSelections` return only the document).
-/

namespace MdSpec

/-- A line of text, and also any piece of text handed to the buffer. -/
abbrev Str := List Char

/-- Text literals as character lists. -/
def str (s : String) : Str := s.data

/-- A CodeMirror position: `{line, ch}`.  Both fields are JavaScript numbers
and may go negative in intermediate engine arithmetic, hence `Int`. -/
structure Pos where
  line : Int
  ch : Int
deriving DecidableEq

/-- CodeMirror's position comparison `cmp(a, b) < 0`: line first, then ch. -/
def Pos.lt (a b : Pos) : Prop :=
  a.line < b.line ∨ (a.line = b.line ∧ a.ch < b.ch)

instance (a b : Pos) : Decidable (Pos.lt a b) := by
  unfold Pos.lt; infer_instance

/-- A CodeMirror selection: an `anchor`/`head` pair of positions. -/
structure Range where
  anchor : Pos
  head : Pos
deriving DecidableEq

/-- `Range.empty()`: anchor and head denote the same position. -/
def Range.emptySel (r : Range) : Bool := decide (r.anchor = r.head)

/-- `Range.from()` = `minPos(anchor, head)`; on equal positions CodeMirror's
`cmp(a,b) < 0 ? a : b` returns the head. -/
def Range.fromP (r : Range) : Pos :=
  if Pos.lt r.anchor r.head then r.anchor else r.head

/-- `Range.to()` = `maxPos(anchor, head)`; on equal positions it returns the anchor. -/
def Range.toP (r : Range) : Pos :=
  if Pos.lt r.anchor r.head then r.head else r.anchor

/-- Mutating `range.from()` in place: `from()` aliases whichever of
anchor/head is currently the smaller, so the update lands on that field. -/
def Range.updFrom (r : Range) (f : Pos → Pos) : Range :=
  if Pos.lt r.anchor r.head then { r with anchor := f r.anchor } else { r with head := f r.head }

/-- Mutating `range.to()` in place (see `updFrom`). -/
def Range.updTo (r : Range) (f : Pos → Pos) : Range :=
  if Pos.lt r.anchor r.head then { r with head := f r.head } else { r with anchor := f r.anchor }

/-- An empty selection (cursor) at `(l, c)`. -/
def caret (l c : Int) : Range := ⟨⟨l, c⟩, ⟨l, c⟩⟩

/-- The buffer: an ordered sequence of lines (spec §3). -/
abbrev Doc := List Str

/-- `cm.getLine(n)`: `undefined` (here `none`) outside the document. -/
def getLine (doc : Doc) (n : Int) : Option Str :=
  if n < 0 then none else doc[n.toNat]?

/-- Length of line `n` (`0` for a missing line). -/
def lineLen (doc : Doc) (n : Int) : Int :=
  (((getLine doc n).getD []).length : Int)

/-- Split a text on `'\n'`; always returns at least one (possibly empty) line. -/
def splitLines : Str → List Str
  | [] => [[]]
  | c :: cs =>
    if c = '\n' then [] :: splitLines cs
    else
      match splitLines cs with
      | [] => [[c]]
      | l :: ls => (c :: l) :: ls

/-- Join lines with `'\n'`. -/
def joinNL (ls : List Str) : Str := List.intercalate [ '\n' ] ls

/-- `cm.getRange(f, t)`: the text between two positions, `'\n'`-joined. -/
def getRangeStr (doc : Doc) (f t : Pos) : Str :=
  if f.line = t.line then
    (((getLine doc f.line).getD []).take t.ch.toNat).drop f.ch.toNat
  else
    let first := ((getLine doc f.line).getD []).drop f.ch.toNat
    let last := ((getLine doc t.line).getD []).take t.ch.toNat
    let mids := (doc.drop (f.line.toNat + 1)).take (t.line - f.line - 1).toNat
    joinNL (first :: (mids ++ [last]))

/-- `cm.replaceRange(text, f, t?)`: splice `text` over the range `[f, t)`;
a missing `t` means pure insertion at `f` (spec §6). -/
def replaceRange (doc : Doc) (text : Str) (f : Pos) (t? : Option Pos) : Doc :=
  let t := t?.getD f
  let before := ((getLine doc f.line).getD []).take f.ch.toNat
  let after := ((getLine doc t.line).getD []).drop t.ch.toNat
  doc.take f.line.toNat ++ splitLines (before ++ text ++ after) ++ doc.drop (t.line.toNat + 1)

/-- CodeMirror's `clipPos`: clamp the line into the document, then the column
into that line. -/
def clipPos (doc : Doc) (p : Pos) : Pos :=
  let ln := max 0 (min p.line ((doc.length : Int) - 1))
  ⟨ln, max 0 (min p.ch (lineLen doc ln))⟩

/-- Clip both ends of a range. -/
def clipRange (doc : Doc) (r : Range) : Range :=
  ⟨clipPos doc r.anchor, clipPos doc r.head⟩

/-- `cm.setSelections(ranges)`: the buffer clips every requested position into
the document before installing it.  (CodeMirror additionally normalizes
overlapping ranges; no engine call in the claims produces overlapping
requests, so that step is not modelled.) -/
def setSelections (doc : Doc) (rs : List Range) : List Range :=
  rs.map (clipRange doc)

/-- Tab-or-space, the `(\t| )` character class of the line patterns. -/
def wsChar (c : Char) : Bool := c == '\t' || c == ' '

/-- Match length of `ORDERED_LIST_PATTERN = /^(\d)+\.(\t| )+/` (both editions):
one or more digits, a dot, one or more tabs/spaces; `none` if no match. -/
def ordLen (l : Str) : Option Nat :=
  let d := (l.takeWhile Char.isDigit).length
  if d = 0 then none
  else
    match (l.drop d).head? with
    | some '.' =>
      let w := ((l.drop (d + 1)).takeWhile wsChar).length
      if w = 0 then none else some (d + 1 + w)
    | _ => none

/-- `line.search(ORDERED_LIST_PATTERN) !== -1`. -/
def ordMatch (l : Str) : Bool := (ordLen l).isSome

/-- Match length of `UNORDERED_LIST_PATTERN = /^(\*|-)(\t| )+/`. -/
def unordLen (l : Str) : Option Nat :=
  match l with
  | [] => none
  | c :: rest =>
    if c = '*' ∨ c = '-' then
      let w := (rest.takeWhile wsChar).length
      if w = 0 then none else some (1 + w)
    else none

/-- `line.search(UNORDERED_LIST_PATTERN) !== -1`. -/
def unordMatch (l : Str) : Bool := (unordLen l).isSome

/-- `line.search(/\./)`: index of the first dot (the line length if none;
every call site is guarded by an `ORDERED_LIST_PATTERN` match). -/
def dotIdx (l : Str) : Nat := l.findIdx (fun c => c == '.')

/-- JavaScript `+s` numeric conversion, on the digit strings the engine feeds
it (the call site is guarded by an `ORDERED_LIST_PATTERN` match). -/
def strToNat (s : Str) : Nat := s.foldl (fun a c => a * 10 + (c.toNat - 48)) 0

/-- Decimal digits of `n`, low digit last; `fuel` bounds the recursion depth
(`n+1` always suffices since `n/10 < n` for `n ≥ 10`). -/
def natStrGo : Nat → Nat → Str
  | 0, _ => []
  | fuel + 1, n =>
    let d := Char.ofNat (48 + n % 10)
    if n < 10 then [d] else natStrGo fuel (n / 10) ++ [d]

/-- JavaScript `${n}` decimal rendering of a natural number. -/
def natStr (n : Nat) : Str := natStrGo (n + 1) n

/-- `prefixStart` of the inline toggles (src/src line 69; the same clamped
expression appears at src/lib/src line 114): never left of column 0. -/
def prefixStartPos (f : Pos) (len : Nat) : Pos :=
  ⟨f.line, if f.ch ≥ (len : Int) then f.ch - len else 0⟩

/-- `suffixEnd` of the inline toggles (src/src line 70; same expression at
src/lib/src lines 102-105): never beyond the end of the line. -/
def suffixEndPos (t : Pos) (len : Nat) (endLineLength : Int) : Pos :=
  ⟨t.line, if t.ch ≤ endLineLength - (len : Int) then t.ch + len else endLineLength⟩

/-- The heading token `'#'.repeat(level) + (level === 0 ? '' : ' ')`
(src/src line 113, src/lib/src line 153). -/
def headingToken (level : Nat) : Str :=
  List.replicate level '#' ++ (if level = 0 then [] else [' '])

/-- `old.replace(/^((#)*( )?)/, tok)`: the greedy anchored match strips the
whole leading run of `'#'` plus one following space if present. -/
def replaceHeadingMatch (tok : Str) (old : Str) : Str :=
  let hashes := (old.takeWhile (fun c => c == '#')).length
  let sp := if (old.drop hashes).head? = some ' ' then 1 else 0
  tok ++ old.drop (hashes + sp)

/-- Match length of `/^>(\t| )*/`: a `'>'` plus a (possibly empty) run of
tabs/spaces; `none` if the line does not start with `'>'`. -/
def quoteLen (l : Str) : Option Nat :=
  match l with
  | '>' :: rest => some (1 + (rest.takeWhile wsChar).length)
  | _ => none

/-- Formalized from the spec's renumbering description (spec §4.2): walk the
contiguous run of ordered-list lines, replacing each line's numeral prefix
(up to its dot) by the next integer after `k`, leaving the rest untouched. -/
def specRenumber (k : Nat) : List Str → List Str
  | [] => []
  | l :: ls =>
    if ordMatch l then (natStr (k + 1) ++ l.drop (dotIdx l)) :: specRenumber (k + 1) ls
    else l :: ls

/-- Formalized from claim C6's rule: the new list number is 1 if the previous
line (if any) is not an ordered-list item, else that line's number plus 1. -/
def specNextNumber (prev : Option Str) : Nat :=
  match prev with
  | none => 1
  | some p => if ordMatch p then strToNat (p.take (dotIdx p)) + 1 else 1

/-- Formalized from claim C7's wording: strip a leading run of zero to SIX
'#' characters plus the following space, then prepend the heading token.
(The source regex strips a run of any length; compare `replaceHeadingMatch`.) -/
def claimHeadingRewrite (level : Nat) (old : Str) : Str :=
  let hashes := min ((old.takeWhile (fun c => c == '#')).length) 6
  let sp := if (old.drop hashes).head? = some ' ' then 1 else 0
  headingToken level ++ old.drop (hashes + sp)

namespace SrcEd

/-- The loop body of `toggleInlineFormatting` (src/src lines 56-106):
each selection is first shifted by `currentShift * op.length`, the prefix and
suffix checks read the buffer, tokens are deleted or inserted (suffix side
first), and the selection is adjusted; `currentShift` carries to the rest. -/
def tifGo (op : Str) : Doc → List Range → Int → Doc × List Range
  | doc, [], _ => (doc, [])
  | doc, sel :: rest, currentShift =>
    let selection : Range :=
      { anchor := { sel.anchor with ch := sel.anchor.ch + currentShift * (op.length : Int) },
        head := { sel.head with ch := sel.head.ch + currentShift * (op.length : Int) } }
    let f := selection.fromP
    let t := selection.toP
    let endLineLength : Int := lineLen doc t.line
    let pStart := prefixStartPos f op.length
    let sEnd := suffixEndPos t op.length endLineLength
    let hasPrefixToken := decide (getRangeStr doc pStart f = op)
    let hasSuffixToken := decide (getRangeStr doc t sEnd = op)
    let (doc1, shift1) : Doc × Int :=
      if hasSuffixToken then (replaceRange doc [] t (some sEnd), currentShift - 1)
      else (replaceRange doc op t none, currentShift + 1)
    let (doc2, shift2, selection2) : Doc × Int × Range :=
      if hasPrefixToken then
        let s1 : Range := { selection with anchor := { selection.anchor with ch := selection.anchor.ch - op.length } }
        let s2 : Range := if s1.emptySel then s1 else { s1 with head := { s1.head with ch := s1.head.ch - op.length } }
        (replaceRange doc1 [] pStart (some f), shift1 - 1, s2)
      else
        let s1 : Range := { selection with anchor := { selection.anchor with ch := selection.anchor.ch + op.length } }
        let s2 : Range := if s1.emptySel then s1 else { s1 with head := { s1.head with ch := s1.head.ch + op.length } }
        (replaceRange doc1 op f none, shift1 + 1, s2)
    let (docF, outs) := tifGo op doc2 rest shift2
    (docF, selection2 :: outs)

/-- `toggleInlineFormatting(op)` of src/src/markdown-editor.ts lines 56-106. -/
def toggleInlineFormatting (op : Str) (doc : Doc) (sels : List Range) : Doc × List Range :=
  let (d, newSelections) := tifGo op doc sels 0
  (d, setSelections d newSelections)

/-- `toggleBold()` (src/src line 26). -/
def toggleBold (doc : Doc) (sels : List Range) : Doc × List Range :=
  toggleInlineFormatting (str "**") doc sels

/-- `toggleItalic()` (src/src line 33). -/
def toggleItalic (doc : Doc) (sels : List Range) : Doc × List Range :=
  toggleInlineFormatting (str "*") doc sels

/-- `toggleStrikethrough()` (src/src line 40). -/
def toggleStrikethrough (doc : Doc) (sels : List Range) : Doc × List Range :=
  toggleInlineFormatting (str "~~") doc sels

/-- `toggleInlineCode()` (src/src line 47). -/
def toggleInlineCode (doc : Doc) (sels : List Range) : Doc × List Range :=
  toggleInlineFormatting (str "`") doc sels

/-- The per-line loop of `replaceTokenAtLineStart` (src/src lines 220-237):
for each line of the selection, read it, run `replaceFn` (which may itself
mutate the buffer), splice the returned line back over `[0, old.length)`, and
record the growth of the first and last selected lines. -/
def rtalsLines (replaceFn : Doc → Str → Int → Doc × Str) (fromLine toLine : Int) :
    Doc → Int → Nat → Int → Int → Doc × Int × Int
  | doc, _, 0, shiftFrom, shiftTo => (doc, shiftFrom, shiftTo)
  | doc, lineNumber, count + 1, shiftFrom, shiftTo =>
    let oldLineContent := (getLine doc lineNumber).getD []
    let fnOut := replaceFn doc oldLineContent lineNumber
    let doc := replaceRange fnOut.1 fnOut.2 ⟨lineNumber, 0⟩ (some ⟨lineNumber, (oldLineContent.length : Int)⟩)
    let shiftFrom := if lineNumber = fromLine then (fnOut.2.length : Int) - oldLineContent.length else shiftFrom
    let shiftTo := if lineNumber = toLine then (fnOut.2.length : Int) - oldLineContent.length else shiftTo
    rtalsLines replaceFn fromLine toLine doc (lineNumber + 1) count shiftFrom shiftTo

/-- Per-selection loop of `replaceTokenAtLineStart` (src/src lines 214-247),
including the anchor-or-head shift dispatch on `_.isEqual(anchor, from())` and
the `empty()` test evaluated after the anchor has already been shifted. -/
def rtalsGo (replaceFn : Doc → Str → Int → Doc × Str) : Doc → List Range → Doc × List Range
  | doc, [] => (doc, [])
  | doc, sel :: rest =>
    let count := ((sel.toP.line - sel.fromP.line) + 1).toNat
    let out := rtalsLines replaceFn sel.fromP.line sel.toP.line doc sel.fromP.line count 0 0
    let doc := out.1
    let shiftFrom := out.2.1
    let shiftTo := out.2.2
    let selection :=
      if sel.anchor = sel.fromP then
        let s1 : Range := { sel with anchor := { sel.anchor with ch := sel.anchor.ch + shiftFrom } }
        if s1.emptySel then s1 else { s1 with head := { s1.head with ch := s1.head.ch + shiftTo } }
      else
        let s1 : Range := { sel with anchor := { sel.anchor with ch := sel.anchor.ch + shiftTo } }
        if s1.emptySel then s1 else { s1 with head := { s1.head with ch := s1.head.ch + shiftFrom } }
    let (docF, outs) := rtalsGo replaceFn doc rest
    (docF, selection :: outs)

/-- `replaceTokenAtLineStart(replaceFn)` of src/src lines 214-251. -/
def replaceTokenAtLineStart (replaceFn : Doc → Str → Int → Doc × Str) (doc : Doc)
    (sels : List Range) : Doc × List Range :=
  let (d, newSelections) := rtalsGo replaceFn doc sels
  (d, setSelections d newSelections)

/-- `setHeadingLevel(level)` of src/src lines 112-115. -/
def setHeadingLevel (level : Nat) (doc : Doc) (sels : List Range) : Doc × List Range :=
  replaceTokenAtLineStart
    (fun cm oldLineContent _ => (cm, replaceHeadingMatch (headingToken level) oldLineContent))
    doc sels

/-- `toggleQuote()` of src/src lines 120-129. -/
def toggleQuote (doc : Doc) (sels : List Range) : Doc × List Range :=
  replaceTokenAtLineStart
    (fun cm oldLineContent _ =>
      match quoteLen oldLineContent with
      | none => (cm, str "> " ++ oldLineContent)
      | some n => (cm, oldLineContent.drop n))
    doc sels

/-- `toggleUnorderedList()` of src/src lines 135-150 (bullet token `'- '`). -/
def toggleUnorderedList (doc : Doc) (sels : List Range) : Doc × List Range :=
  replaceTokenAtLineStart
    (fun cm oldLineContent _ =>
      if unordMatch oldLineContent = false then
        let token := str "- "
        if ordMatch oldLineContent = false then (cm, token ++ oldLineContent)
        else (cm, token ++ oldLineContent.drop ((ordLen oldLineContent).getD 0))
      else (cm, oldLineContent.drop ((unordLen oldLineContent).getD 0)))
    doc sels

/-- The while loop of `processNextLinesOfOrderedList` (src/src lines 192-207):
renumber each following line while it is truthy and matches the ordered
pattern, replacing `[0, dotPos)` by the next integer.  The loop advances one
line per step, so `doc.length + 1` iterations always suffice. -/
def pnlGo : Doc → Int → Nat → Nat → Doc
  | doc, _, _, 0 => doc
  | doc, nextLineNumber, listNumber, fuel + 1 =>
    match getLine doc nextLineNumber with
    | none => doc
    | some nextLine =>
      if nextLine.isEmpty then doc
      else if ordMatch nextLine = false then doc
      else
        let k := listNumber + 1
        let dotPos := dotIdx nextLine
        let doc := replaceRange doc (natStr k) ⟨nextLineNumber, 0⟩ (some ⟨nextLineNumber, (dotPos : Int)⟩)
        pnlGo doc (nextLineNumber + 1) k fuel

/-- `processNextLinesOfOrderedList(baseLineNumber, baseListNumber)` of
src/src lines 192-207. -/
def processNextLinesOfOrderedList (doc : Doc) (baseLineNumber : Int) (baseListNumber : Nat) : Doc :=
  pnlGo doc (baseLineNumber + 1) baseListNumber (doc.length + 1)

/-- `toggleOrderedList()` of src/src lines 157-185.  `!prevLine` is true both
for a missing line (`undefined`) and for an empty one. -/
def toggleOrderedList (doc : Doc) (sels : List Range) : Doc × List Range :=
  replaceTokenAtLineStart
    (fun cm oldLineContent lineNumber =>
      if ordMatch oldLineContent = false then
        let listNumber : Nat :=
          match getLine cm (lineNumber - 1) with
          | none => 1
          | some prevLine =>
            if prevLine.isEmpty then 1
            else if ordMatch prevLine = false then 1
            else strToNat (prevLine.take (dotIdx prevLine)) + 1
        let cm2 := processNextLinesOfOrderedList cm lineNumber listNumber
        let numberToken := natStr listNumber ++ str ". "
        if unordMatch oldLineContent = false then (cm2, numberToken ++ oldLineContent)
        else (cm2, numberToken ++ oldLineContent.drop ((unordLen oldLineContent).getD 0))
      else
        (processNextLinesOfOrderedList cm lineNumber 0,
         oldLineContent.drop ((ordLen oldLineContent).getD 0)))
    doc sels

/-- The main loop of `insertCodeBlock` (src/src lines 256-303); the fuel is
the selection count.  Later selections are rebased by the consumed remainder
of the processed selection's end line and shifted down by the inserted lines. -/
def icbGo : Nat → Doc → List Range → Doc × List Range
  | 0, doc, _ => (doc, [])
  | _, doc, [] => (doc, [])
  | fuel + 1, doc, oldSelection :: rest =>
    let ns := oldSelection
    let startTokenShift : Str × Int :=
      if ns.fromP.ch > 0 then (str "\n" ++ str "```" ++ str "\n", 4) else (str "```" ++ str "\n", 3)
    let startToken := startTokenShift.1
    let currentShift := startTokenShift.2
    let doc := replaceRange doc (str "\n" ++ str "```" ++ str "\n") ns.toP none
    let doc := replaceRange doc startToken ns.fromP none
    let offset : Int := if ns.fromP.line = ns.toP.line then ns.fromP.ch else 0
    let ns :=
      if ns.emptySel then
        -- `anchor = head` aliases the two fields, so the two following
        -- `from()` mutations land on both at once.
        let q : Pos := ⟨ns.head.line + (currentShift - 2), 0⟩
        (⟨q, q⟩ : Range)
      else
        let ns := (ns.updTo (fun p => { p with line := p.line + (currentShift - 2) })).updTo
          (fun p => { p with ch := p.ch - offset })
        let ns := ns.updFrom (fun p => { p with line := p.line + (currentShift - 2) })
        ns.updFrom (fun p => { p with ch := 0 })
    let rest' := rest.map (fun s =>
      let remainderIndex := oldSelection.toP.ch
      let s := if s.fromP.line = oldSelection.toP.line
               then s.updFrom (fun p => { p with ch := p.ch - remainderIndex }) else s
      let s := if s.toP.line = oldSelection.toP.line
               then s.updTo (fun p => { p with ch := p.ch - remainderIndex }) else s
      let s := if s.emptySel then s else s.updTo (fun p => { p with line := p.line + currentShift })
      s.updFrom (fun p => { p with line := p.line + currentShift }))
    let out := icbGo fuel doc rest'
    (out.1, ns :: out.2)

/-- `insertCodeBlock()` of src/src lines 256-303 (fence token `'```'`). -/
def insertCodeBlock (doc : Doc) (sels : List Range) : Doc × List Range :=
  let (d, newSelections) := icbGo sels.length doc sels
  (d, setSelections d newSelections)

end SrcEd

namespace LibEd

/-- `BOLD_TOKENS` (src/lib/src line 18). -/
def BOLD_TOKENS : List Str := [str "**", str "__"]

/-- `ITALIC_TOKENS` (src/lib/src line 19). -/
def ITALIC_TOKENS : List Str := [str "*", str "_"]

/-- The "adjust all following selections" loop shared verbatim by
`toggleInlineFormatting` (src/lib/src lines 130-141) and
`insertInlineTemplate` (lines 395-406): shift head/anchor columns of each
later selection when they sit on the processed from/to lines; an empty
selection first aliases `head = anchor`, so both ends move together; the loop
breaks after the first selection whose anchor is off the `to` line. -/
def adjustFollowing (fLine tLine : Int) (dB dA : Int) : List Range → List Range
  | [] => []
  | s :: ss =>
    let s1 :=
      if s.emptySel then
        let a1 := if s.anchor.line = fLine then s.anchor.ch + dB else s.anchor.ch
        let a2 := if s.anchor.line = tLine then a1 + dA else a1
        let q : Pos := { s.anchor with ch := a2 }
        (⟨q, q⟩ : Range)
      else
        let h1 := if s.head.line = fLine then s.head.ch + dB else s.head.ch
        let h2 := if s.head.line = tLine then h1 + dA else h1
        let a1 := if s.anchor.line = fLine then s.anchor.ch + dB else s.anchor.ch
        let a2 := if s.anchor.line = tLine then a1 + dA else a1
        (⟨{ s.anchor with ch := a2 }, { s.head with ch := h2 }⟩ : Range)
    if s.anchor.line = tLine then s1 :: adjustFollowing fLine tLine dB dA ss
    else s1 :: ss

/-- The main loop of `toggleInlineFormatting(token, altTokens)`
(src/lib/src lines 75-146); the fuel is the selection count.  Token detection
is by `linePartBefore`-ends-with / `linePartAfter`-starts-with over the
preferred token and the alternatives; the processed selection is adjusted
through the `from()`/`to()` aliases (which re-resolve after each mutation). -/
def tifGo (token : Str) (altTokens : List Str) : Nat → Doc → List Range → Doc × List Range
  | 0, doc, _ => (doc, [])
  | _, doc, [] => (doc, [])
  | fuel + 1, doc, oldSelection :: rest =>
    let f := oldSelection.fromP
    let t := oldSelection.toP
    let endLineLength : Int := lineLen doc t.line
    let linePartBefore := getRangeStr doc ⟨f.line, 0⟩ f
    let linePartAfter := getRangeStr doc t ⟨t.line, endLineLength⟩
    let pfxTok := (token :: altTokens).find? (fun tk => tk.isSuffixOf linePartBefore)
    let sfxTok := (token :: altTokens).find? (fun tk => tk.isPrefixOf linePartAfter)
    let afterOut : Doc × Int :=
      match sfxTok with
      | some st => (replaceRange doc [] t (some (suffixEndPos t st.length endLineLength)), -1)
      | none => (replaceRange doc token t none, 1)
    let doc1 := afterOut.1
    let afterShift := afterOut.2
    let beforeOut : Doc × Int :=
      match pfxTok with
      | some pt => (replaceRange doc1 [] (prefixStartPos f pt.length) (some f), -1)
      | none => (replaceRange doc1 token f none, 1)
    let doc2 := beforeOut.1
    let beforeShift := beforeOut.2
    let ns :=
      if oldSelection.emptySel then
        -- `head = anchor` aliases the fields; the later `from()` shift moves both.
        let q : Pos := { oldSelection.anchor with
                         ch := oldSelection.anchor.ch + beforeShift * (token.length : Int) }
        (⟨q, q⟩ : Range)
      else
        let ns := if f.line = t.line
                  then oldSelection.updTo (fun p => { p with ch := p.ch + beforeShift * (token.length : Int) })
                  else oldSelection
        ns.updFrom (fun p => { p with ch := p.ch + beforeShift * (token.length : Int) })
    let rest' := adjustFollowing f.line t.line
      (beforeShift * (token.length : Int)) (afterShift * (token.length : Int)) rest
    let out := tifGo token altTokens fuel doc2 rest'
    (out.1, ns :: out.2)

/-- `toggleInlineFormatting(token, altTokens)` of src/lib/src lines 75-146. -/
def toggleInlineFormatting (token : Str) (altTokens : List Str) (doc : Doc)
    (sels : List Range) : Doc × List Range :=
  let (d, newSelections) := tifGo token altTokens sels.length doc sels
  (d, setSelections d newSelections)

/-- `toggleBold()` (src/lib/src lines 36-42), with the configured preferred token. -/
def toggleBold (preferred : Str) (doc : Doc) (sels : List Range) : Doc × List Range :=
  toggleInlineFormatting preferred (BOLD_TOKENS.filter (fun tk => tk ≠ preferred)) doc sels

/-- `toggleItalic()` (src/lib/src lines 47-53). -/
def toggleItalic (preferred : Str) (doc : Doc) (sels : List Range) : Doc × List Range :=
  toggleInlineFormatting preferred (ITALIC_TOKENS.filter (fun tk => tk ≠ preferred)) doc sels

/-- `toggleStrikethrough()` (src/lib/src line 58). -/
def toggleStrikethrough (doc : Doc) (sels : List Range) : Doc × List Range :=
  toggleInlineFormatting (str "~~") [] doc sels

/-- `toggleInlineCode()` (src/lib/src line 65). -/
def toggleInlineCode (doc : Doc) (sels : List Range) : Doc × List Range :=
  toggleInlineFormatting (str "`") [] doc sels

/-- Per-line loop of `replaceTokenAtLineStart` (src/lib/src lines 269-286;
identical to the src/src edition). -/
def rtalsLines (replaceFn : Doc → Str → Int → Doc × Str) (fromLine toLine : Int) :
    Doc → Int → Nat → Int → Int → Doc × Int × Int
  | doc, _, 0, shiftFrom, shiftTo => (doc, shiftFrom, shiftTo)
  | doc, lineNumber, count + 1, shiftFrom, shiftTo =>
    let oldLineContent := (getLine doc lineNumber).getD []
    let fnOut := replaceFn doc oldLineContent lineNumber
    let doc := replaceRange fnOut.1 fnOut.2 ⟨lineNumber, 0⟩ (some ⟨lineNumber, (oldLineContent.length : Int)⟩)
    let shiftFrom := if lineNumber = fromLine then (fnOut.2.length : Int) - oldLineContent.length else shiftFrom
    let shiftTo := if lineNumber = toLine then (fnOut.2.length : Int) - oldLineContent.length else shiftTo
    rtalsLines replaceFn fromLine toLine doc (lineNumber + 1) count shiftFrom shiftTo

/-- Per-selection loop of `replaceTokenAtLineStart` (src/lib/src lines 263-296). -/
def rtalsGo (replaceFn : Doc → Str → Int → Doc × Str) : Doc → List Range → Doc × List Range
  | doc, [] => (doc, [])
  | doc, sel :: rest =>
    let count := ((sel.toP.line - sel.fromP.line) + 1).toNat
    let out := rtalsLines replaceFn sel.fromP.line sel.toP.line doc sel.fromP.line count 0 0
    let doc := out.1
    let shiftFrom := out.2.1
    let shiftTo := out.2.2
    let selection :=
      if sel.anchor = sel.fromP then
        let s1 : Range := { sel with anchor := { sel.anchor with ch := sel.anchor.ch + shiftFrom } }
        if s1.emptySel then s1 else { s1 with head := { s1.head with ch := s1.head.ch + shiftTo } }
      else
        let s1 : Range := { sel with anchor := { sel.anchor with ch := sel.anchor.ch + shiftTo } }
        if s1.emptySel then s1 else { s1 with head := { s1.head with ch := s1.head.ch + shiftFrom } }
    let (docF, outs) := rtalsGo replaceFn doc rest
    (docF, selection :: outs)

/-- `replaceTokenAtLineStart(replaceFn)` of src/lib/src lines 263-300. -/
def replaceTokenAtLineStart (replaceFn : Doc → Str → Int → Doc × Str) (doc : Doc)
    (sels : List Range) : Doc × List Range :=
  let (d, newSelections) := rtalsGo replaceFn doc sels
  (d, setSelections d newSelections)

/-- `setHeadingLevel(level)` of src/lib/src lines 152-155. -/
def setHeadingLevel (level : Nat) (doc : Doc) (sels : List Range) : Doc × List Range :=
  replaceTokenAtLineStart
    (fun cm oldLineContent _ => (cm, replaceHeadingMatch (headingToken level) oldLineContent))
    doc sels

/-- `toggleQuote()` of src/lib/src lines 160-169. -/
def toggleQuote (doc : Doc) (sels : List Range) : Doc × List Range :=
  replaceTokenAtLineStart
    (fun cm oldLineContent _ =>
      match quoteLen oldLineContent with
      | none => (cm, str "> " ++ oldLineContent)
      | some n => (cm, oldLineContent.drop n))
    doc sels

/-- `toggleUnorderedList()` of src/lib/src lines 175-190; the bullet token is
the configured `preferredTokens.unorderedList` plus a space. -/
def toggleUnorderedList (unorderedListToken : Str) (doc : Doc) (sels : List Range) :
    Doc × List Range :=
  let preferred := unorderedListToken ++ str " "
  replaceTokenAtLineStart
    (fun cm oldLineContent _ =>
      if unordMatch oldLineContent = false then
        if ordMatch oldLineContent = false then (cm, preferred ++ oldLineContent)
        else (cm, preferred ++ oldLineContent.drop ((ordLen oldLineContent).getD 0))
      else (cm, oldLineContent.drop ((unordLen oldLineContent).getD 0)))
    doc sels

/-- The while loop of `processNextLinesOfOrderedList` (src/lib/src lines
232-247; identical to the src/src edition). -/
def pnlGo : Doc → Int → Nat → Nat → Doc
  | doc, _, _, 0 => doc
  | doc, nextLineNumber, listNumber, fuel + 1 =>
    match getLine doc nextLineNumber with
    | none => doc
    | some nextLine =>
      if nextLine.isEmpty then doc
      else if ordMatch nextLine = false then doc
      else
        let k := listNumber + 1
        let dotPos := dotIdx nextLine
        let doc := replaceRange doc (natStr k) ⟨nextLineNumber, 0⟩ (some ⟨nextLineNumber, (dotPos : Int)⟩)
        pnlGo doc (nextLineNumber + 1) k fuel

/-- `processNextLinesOfOrderedList(baseLineNumber, baseListNumber)` of
src/lib/src lines 232-247. -/
def processNextLinesOfOrderedList (doc : Doc) (baseLineNumber : Int) (baseListNumber : Nat) : Doc :=
  pnlGo doc (baseLineNumber + 1) baseListNumber (doc.length + 1)

/-- `toggleOrderedList()` of src/lib/src lines 197-225. -/
def toggleOrderedList (doc : Doc) (sels : List Range) : Doc × List Range :=
  replaceTokenAtLineStart
    (fun cm oldLineContent lineNumber =>
      if ordMatch oldLineContent = false then
        let listNumber : Nat :=
          match getLine cm (lineNumber - 1) with
          | none => 1
          | some prevLine =>
            if prevLine.isEmpty then 1
            else if ordMatch prevLine = false then 1
            else strToNat (prevLine.take (dotIdx prevLine)) + 1
        let cm2 := processNextLinesOfOrderedList cm lineNumber listNumber
        let numberToken := natStr listNumber ++ str ". "
        if unordMatch oldLineContent = false then (cm2, numberToken ++ oldLineContent)
        else (cm2, numberToken ++ oldLineContent.drop ((unordLen oldLineContent).getD 0))
      else
        (processNextLinesOfOrderedList cm lineNumber 0,
         oldLineContent.drop ((ordLen oldLineContent).getD 0)))
    doc sels

/-- The main loop of `insertCodeBlock` (src/lib/src lines 305-353), with the
configured `preferredTokens.codeBlock` fence; the fuel is the selection count. -/
def icbGo (preferredToken : Str) : Nat → Doc → List Range → Doc × List Range
  | 0, doc, _ => (doc, [])
  | _, doc, [] => (doc, [])
  | fuel + 1, doc, oldSelection :: rest =>
    let ns := oldSelection
    let startTokenShift : Str × Int :=
      if ns.fromP.ch > 0 then (str "\n" ++ preferredToken ++ str "\n", 4) else (preferredToken ++ str "\n", 3)
    let startToken := startTokenShift.1
    let currentShift := startTokenShift.2
    let doc := replaceRange doc (str "\n" ++ preferredToken ++ str "\n") ns.toP none
    let doc := replaceRange doc startToken ns.fromP none
    let offset : Int := if ns.fromP.line = ns.toP.line then ns.fromP.ch else 0
    let ns :=
      if ns.emptySel then
        -- `anchor = head` aliases the two fields, so the two following
        -- `from()` mutations land on both at once.
        let q : Pos := ⟨ns.head.line + (currentShift - 2), 0⟩
        (⟨q, q⟩ : Range)
      else
        let ns := (ns.updTo (fun p => { p with line := p.line + (currentShift - 2) })).updTo
          (fun p => { p with ch := p.ch - offset })
        let ns := ns.updFrom (fun p => { p with line := p.line + (currentShift - 2) })
        ns.updFrom (fun p => { p with ch := 0 })
    let rest' := rest.map (fun s =>
      let remainderIndex := oldSelection.toP.ch
      let s := if s.fromP.line = oldSelection.toP.line
               then s.updFrom (fun p => { p with ch := p.ch - remainderIndex }) else s
      let s := if s.toP.line = oldSelection.toP.line
               then s.updTo (fun p => { p with ch := p.ch - remainderIndex }) else s
      let s := if s.emptySel then s else s.updTo (fun p => { p with line := p.line + currentShift })
      s.updFrom (fun p => { p with line := p.line + currentShift }))
    let out := icbGo preferredToken fuel doc rest'
    (out.1, ns :: out.2)

/-- `insertCodeBlock()` of src/lib/src lines 305-353. -/
def insertCodeBlock (preferredToken : Str) (doc : Doc) (sels : List Range) : Doc × List Range :=
  let (d, newSelections) := icbGo preferredToken sels.length doc sels
  (d, setSelections d newSelections)

/-- The main loop of `insertInlineTemplate(before, after)` (src/lib/src lines
376-411); the fuel is the selection count. -/
def iitGo (bTpl aTpl : Str) : Nat → Doc → List Range → Doc × List Range
  | 0, doc, _ => (doc, [])
  | _, doc, [] => (doc, [])
  | fuel + 1, doc, oldSelection :: rest =>
    let doc := replaceRange doc aTpl oldSelection.toP none
    let doc := replaceRange doc bTpl oldSelection.fromP none
    let ns :=
      if oldSelection.emptySel then
        -- `head = anchor` aliases the fields; the later `from()` shift moves both.
        let q : Pos := { oldSelection.anchor with ch := oldSelection.anchor.ch + (bTpl.length : Int) }
        (⟨q, q⟩ : Range)
      else
        (oldSelection.updTo (fun p => { p with ch := p.ch + (bTpl.length : Int) })).updFrom
          (fun p => { p with ch := p.ch + (bTpl.length : Int) })
    let rest' := adjustFollowing oldSelection.fromP.line oldSelection.toP.line
      (bTpl.length : Int) (aTpl.length : Int) rest
    let out := iitGo bTpl aTpl fuel doc rest'
    (out.1, ns :: out.2)

/-- `insertInlineTemplate(before, after)` of src/lib/src lines 376-411. -/
def insertInlineTemplate (bTpl aTpl : Str) (doc : Doc) (sels : List Range) : Doc × List Range :=
  let (d, newSelections) := iitGo bTpl aTpl sels.length doc sels
  (d, setSelections d newSelections)

/-- The main loop of `insertBlockTemplateBelow` (src/lib/src lines 466-493).
`template` is a single mutable variable in the source, so the conditional
`'\n' + template` prepend carries over to all later selections; the model
threads the mutated template through the recursion for that reason. -/
def ibtbGo : Str → Doc → List Range → Int → Doc
  | _, doc, [], _ => doc
  | template, doc, oldSelection :: rest, currentShift =>
    let ns :=
      if oldSelection.emptySel then
        -- `head = anchor` aliases the fields; the later `from()` shift moves both.
        let q : Pos := { oldSelection.anchor with line := oldSelection.anchor.line + currentShift }
        (⟨q, q⟩ : Range)
      else
        (oldSelection.updTo (fun p => { p with line := p.line + currentShift })).updFrom
          (fun p => { p with line := p.line + currentShift })
    let toLineNumber := ns.toP.line
    let toLineLength : Int := lineLen doc toLineNumber
    let template := if toLineLength > 0 then str "\n" ++ template else template
    let currentShift := currentShift + (template.count '\n' : Int)
    let doc := replaceRange doc template ⟨toLineNumber, toLineLength⟩ none
    ibtbGo template doc rest currentShift

/-- `insertBlockTemplateBelow(template)` of src/lib/src lines 466-493, with
the default `'\n'` line separator (the only one the claims exercise).  The
function does not call `setSelections`; it returns the mutated document. -/
def insertBlockTemplateBelow (template : Str) (doc : Doc) (sels : List Range) : Doc :=
  ibtbGo template doc sels 0

/-- `insertHorizontalLine()` of src/lib/src lines 416-419, with the configured
`preferredTokens.horizontalLine`. -/
def insertHorizontalLine (preferred : Str) (doc : Doc) (sels : List Range) : Doc :=
  insertBlockTemplateBelow (str "\n" ++ preferred ++ str "\n\n") doc sels

end LibEd

/-! Supporting lemmas. -/

theorem splitLines_no_nl {x : Str} (h : '\n' ∉ x) : splitLines x = [x] := by
  induction x with
  | nil => rfl
  | cons c cs ih =>
    have hc : ¬ c = '\n' := fun hc => h (hc ▸ List.mem_cons_self c cs)
    have hcs : '\n' ∉ cs := fun hm => h (List.mem_cons_of_mem c hm)
    simp only [splitLines, if_neg hc, ih hcs]

theorem splitLines_append_nl {x : Str} (y : Str) (h : '\n' ∉ x) :
    splitLines (x ++ '\n' :: y) = x :: splitLines y := by
  induction x with
  | nil => simp [splitLines]
  | cons c cs ih =>
    have hc : ¬ c = '\n' := fun hc => h (hc ▸ List.mem_cons_self c cs)
    have hcs : '\n' ∉ cs := fun hm => h (List.mem_cons_of_mem c hm)
    simp only [List.cons_append, splitLines, if_neg hc]
    rw [List.append_eq, ih hcs]

theorem getLine_at (pre post : List Str) (L : Str) :
    getLine (pre ++ L :: post) (pre.length : Int) = some L := by
  unfold getLine
  rw [if_neg (by omega)]
  rw [Int.toNat_natCast]
  rw [List.getElem?_append_right (Nat.le_refl _)]
  simp

theorem getLine_past (A : List Str) (n : Int) (h : (A.length : Int) ≤ n) :
    getLine A n = none := by
  unfold getLine
  split
  · rfl
  · exact List.getElem?_eq_none (by omega)

theorem lineLen_at (doc : Doc) (l : Int) (L : Str) (h : getLine doc l = some L) :
    lineLen doc l = (L.length : Int) := by
  unfold lineLen; rw [h]; rfl

theorem getRangeStr_sameline (doc : Doc) (l x y : Int) (L : Str)
    (h : getLine doc l = some L) :
    getRangeStr doc ⟨l, x⟩ ⟨l, y⟩ = (L.take y.toNat).drop x.toNat := by
  unfold getRangeStr
  rw [if_pos rfl]
  simp [h]

theorem doc_take_at (pre post : List Str) (L : Str) :
    (pre ++ L :: post).take ((pre.length : Int)).toNat = pre := by
  rw [Int.toNat_natCast]
  exact List.take_left pre (L :: post)

theorem doc_drop_at (pre post : List Str) (L : Str) :
    (pre ++ L :: post).drop (((pre.length : Int)).toNat + 1) = post := by
  rw [Int.toNat_natCast]
  have : pre ++ L :: post = (pre ++ [L]) ++ post := by simp
  rw [this]
  exact List.drop_left' (by simp)

theorem replaceRange_at (pre post : List Str) (L txt : Str) (x y : Int) :
    replaceRange (pre ++ L :: post) txt ⟨(pre.length : Int), x⟩ (some ⟨(pre.length : Int), y⟩)
      = pre ++ splitLines (L.take x.toNat ++ txt ++ L.drop y.toNat) ++ post := by
  unfold replaceRange
  simp only [Option.getD_some, getLine_at, Option.getD_some]
  rw [doc_take_at, doc_drop_at]

theorem replaceRange_insert (doc : Doc) (txt : Str) (p : Pos) :
    replaceRange doc txt p none = replaceRange doc txt p (some p) := rfl

theorem replaceRange_at_line (pre post : List Str) (L txt : Str) (x y : Int)
    (hL : '\n' ∉ L) (ht : '\n' ∉ txt) :
    replaceRange (pre ++ L :: post) txt ⟨(pre.length : Int), x⟩ (some ⟨(pre.length : Int), y⟩)
      = pre ++ (L.take x.toNat ++ txt ++ L.drop y.toNat) :: post := by
  have hmem : '\n' ∉ L.take x.toNat ++ txt ++ L.drop y.toNat := by
    intro hm
    rcases List.mem_append.mp hm with hm | hm
    · rcases List.mem_append.mp hm with hm | hm
      · exact hL (List.mem_of_mem_take hm)
      · exact ht hm
    · exact hL (List.mem_of_mem_drop hm)
  rw [replaceRange_at, splitLines_no_nl hmem]
  simp

theorem posLt_irrefl (p : Pos) : ¬ Pos.lt p p := by simp [Pos.lt]

theorem caret_fromP (l c : Int) : (caret l c).fromP = ⟨l, c⟩ := by
  simp [caret, Range.fromP]

theorem caret_toP (l c : Int) : (caret l c).toP = ⟨l, c⟩ := by
  simp [caret, Range.toP]

theorem rtalsGo_fst_single (replaceFn : Doc → Str → Int → Doc × Str) (sel : Range)
    (doc : Doc) :
    (LibEd.rtalsGo replaceFn doc [sel]).1
      = (LibEd.rtalsLines replaceFn sel.fromP.line sel.toP.line doc sel.fromP.line
          ((sel.toP.line - sel.fromP.line + 1).toNat) 0 0).1 := by
  simp only [LibEd.rtalsGo]

theorem rtalsLines_fst_one (replaceFn : Doc → Str → Int → Doc × Str) (fL tL n : Int)
    (doc : Doc) (sF sT : Int) :
    (LibEd.rtalsLines replaceFn fL tL doc n 1 sF sT).1
      = (let old := (getLine doc n).getD []
         let out := replaceFn doc old n
         replaceRange out.1 out.2 ⟨n, 0⟩ (some ⟨n, (old.length : Int)⟩)) := by
  simp only [LibEd.rtalsLines]

theorem nl_not_mem_headingToken (level : Nat) : '\n' ∉ headingToken level := by
  unfold headingToken
  intro h
  rcases List.mem_append.mp h with h | h
  · exact absurd (List.eq_of_mem_replicate h) (by decide)
  · revert h; split <;> simp

theorem nl_not_mem_rhm (level : Nat) {L : Str} (hL : '\n' ∉ L) :
    '\n' ∉ replaceHeadingMatch (headingToken level) L := by
  simp only [replaceHeadingMatch]
  intro h
  rcases List.mem_append.mp h with h | h
  · exact nl_not_mem_headingToken level h
  · exact hL (List.mem_of_mem_drop h)

theorem digit_ne_nl (r : Nat) (h : r < 10) : Char.ofNat (48 + r) ≠ '\n' := by
  interval_cases r <;> decide

theorem nl_not_mem_natStrGo : ∀ (fuel n : Nat), '\n' ∉ natStrGo fuel n := by
  intro fuel
  induction fuel with
  | zero => intro n h; exact absurd h (List.not_mem_nil _)
  | succ fuel ih =>
    intro n
    unfold natStrGo
    dsimp only
    split
    · intro h
      exact digit_ne_nl (n % 10) (Nat.mod_lt _ (by omega)) (List.mem_singleton.mp h).symm
    · intro h
      rcases List.mem_append.mp h with h | h
      · exact ih (n / 10) h
      · exact digit_ne_nl (n % 10) (Nat.mod_lt _ (by omega)) (List.mem_singleton.mp h).symm

theorem nl_not_mem_natStr (n : Nat) : '\n' ∉ natStr n := nl_not_mem_natStrGo (n + 1) n

theorem ordMatch_nil : ordMatch [] = false := rfl

theorem getLine_prev (pre post : List Str) (L : Str) :
    getLine (pre ++ L :: post) ((pre.length : Int) - 1) = pre.getLast? := by
  cases pre with
  | nil => rfl
  | cons a as =>
    unfold getLine
    rw [if_neg (by simp only [List.length_cons]; omega)]
    rw [show (((a :: as).length : Int) - 1).toNat = as.length by
      simp only [List.length_cons]; omega]
    rw [List.getElem?_append_left (by simp)]
    rw [List.getLast?_eq_getElem?]
    simp

theorem pnlGo_spec :
    ∀ (rest A : List Str) (k fuel : Nat), rest.length < fuel →
      (∀ l ∈ rest, '\n' ∉ l) →
      LibEd.pnlGo (A ++ rest) (A.length : Int) k fuel = A ++ specRenumber k rest := by
  intro rest
  induction rest with
  | nil =>
    intro A k fuel hf _
    cases fuel with
    | zero => omega
    | succ fuel =>
      simp only [List.append_nil, specRenumber, LibEd.pnlGo,
        getLine_past A (A.length : Int) (le_refl _)]
  | cons l ls ih =>
    intro A k fuel hf hnl
    cases fuel with
    | zero => omega
    | succ fuel =>
      have hl : getLine (A ++ l :: ls) (A.length : Int) = some l := getLine_at A ls l
      simp only [LibEd.pnlGo, hl]
      by_cases hm : ordMatch l = true
      · have hlne : l.isEmpty = false := by
          cases l with
          | nil => exact absurd hm (by decide)
          | cons c cs => rfl
        rw [hlne, if_neg (show ¬(false = true) by decide), hm,
          if_neg (show ¬(true = false) by decide)]
        rw [replaceRange_at_line A ls l (natStr (k + 1)) 0 ((dotIdx l : Nat) : Int)
          (hnl l (List.mem_cons_self l ls)) (nl_not_mem_natStr (k + 1))]
        rw [show ((0 : Int)).toNat = 0 from rfl, Int.toNat_natCast, List.take_zero,
          List.nil_append]
        have hstep : A ++ (natStr (k + 1) ++ l.drop (dotIdx l)) :: ls
            = (A ++ [natStr (k + 1) ++ l.drop (dotIdx l)]) ++ ls := by simp
        rw [hstep]
        rw [show (A.length : Int) + 1 = ((A ++ [natStr (k + 1) ++ l.drop (dotIdx l)]).length : Int)
          by simp]
        rw [ih (A ++ [natStr (k + 1) ++ l.drop (dotIdx l)]) (k + 1) fuel (by simpa using hf)
          (fun x hx => hnl x (List.mem_cons_of_mem l hx))]
        simp [specRenumber, hm]
      · have hm' : ordMatch l = false := by
          cases hordm : ordMatch l
          · rfl
          · exact absurd hordm hm
        simp only [specRenumber, hm', Bool.false_eq_true, if_false]
        split <;> simp [hm']

theorem posLt_same_line (l x y : Int) : Pos.lt ⟨l, x⟩ ⟨l, y⟩ ↔ x < y := by
  simp [Pos.lt]

theorem updTo_of_lt (r : Range) (g : Pos → Pos) (h : Pos.lt r.anchor r.head) :
    r.updTo g = { r with head := g r.head } := by
  unfold Range.updTo; rw [if_pos h]

theorem updTo_of_not_lt (r : Range) (g : Pos → Pos) (h : ¬ Pos.lt r.anchor r.head) :
    r.updTo g = { r with anchor := g r.anchor } := by
  unfold Range.updTo; rw [if_neg h]

theorem updFrom_of_lt (r : Range) (g : Pos → Pos) (h : Pos.lt r.anchor r.head) :
    r.updFrom g = { r with anchor := g r.anchor } := by
  unfold Range.updFrom; rw [if_pos h]

theorem updFrom_of_not_lt (r : Range) (g : Pos → Pos) (h : ¬ Pos.lt r.anchor r.head) :
    r.updFrom g = { r with head := g r.head } := by
  unfold Range.updFrom; rw [if_neg h]

theorem clipPos_in_range (doc : Doc) (p : Pos) (L : Str)
    (h : getLine doc p.line = some L) (h0 : 0 ≤ p.ch) (hc : p.ch ≤ (L.length : Int)) :
    clipPos doc p = p := by
  have h1 : ¬ p.line < 0 := by
    intro hneg
    unfold getLine at h
    rw [if_pos hneg] at h
    exact Option.noConfusion h
  have h2 : p.line.toNat < doc.length := by
    unfold getLine at h
    rw [if_neg h1] at h
    exact (List.getElem?_eq_some.mp h).1
  unfold clipPos
  dsimp only
  rw [show max 0 (min p.line ((doc.length : Int) - 1)) = p.line by omega]
  rw [lineLen_at doc p.line L h]
  rw [show max 0 (min p.ch (L.length : Int)) = p.ch by omega]

theorem splice_two_fences (u v tok : Str) (hu : '\n' ∉ u) (ht : '\n' ∉ tok)
    (hv : '\n' ∉ v) :
    splitLines (u ++ (str "\n" ++ tok ++ str "\n") ++ v) = [u, tok, v] := by
  have hsh : u ++ (str "\n" ++ tok ++ str "\n") ++ v = u ++ '\n' :: (tok ++ '\n' :: v) := by
    show u ++ (['\n'] ++ tok ++ ['\n']) ++ v = _
    simp
  rw [hsh, splitLines_append_nl _ hu, splitLines_append_nl _ ht, splitLines_no_nl hv]

theorem icb_doc_step (pre post : List Str) (a b c tok : Str)
    (hna : '\n' ∉ a) (hnb : '\n' ∉ b) (hnc : '\n' ∉ c) (hnt : '\n' ∉ tok) :
    replaceRange
      (replaceRange (pre ++ (a ++ b ++ c) :: post) (str "\n" ++ tok ++ str "\n")
        ⟨(pre.length : Int), ((a.length + b.length : Nat) : Int)⟩ none)
      (str "\n" ++ tok ++ str "\n") ⟨(pre.length : Int), (a.length : Int)⟩ none
      = pre ++ [a, tok, b, tok, c] ++ post := by
  simp only [replaceRange_insert]
  rw [replaceRange_at]
  rw [Int.toNat_natCast]
  rw [show (a ++ b ++ c : Str).take (a.length + b.length) = a ++ b from
    List.take_left' (by simp)]
  rw [show (a ++ b ++ c : Str).drop (a.length + b.length) = c from
    List.drop_left' (by simp)]
  rw [splice_two_fences (a ++ b) c tok
    (fun hm => (List.mem_append.mp hm).elim (fun hx => hna hx) (fun hx => hnb hx)) hnt hnc]
  rw [show pre ++ [a ++ b, tok, c] ++ post = pre ++ (a ++ b) :: ([tok, c] ++ post) by simp]
  rw [replaceRange_at]
  rw [Int.toNat_natCast]
  rw [List.take_left, List.drop_left]
  rw [splice_two_fences a b tok hna hnt hnb]
  simp


theorem clipPos_clamps_ch (doc : Doc) (p : Pos) (L : Str)
    (h : getLine doc p.line = some L) (hc : (L.length : Int) ≤ p.ch) :
    clipPos doc p = ⟨p.line, (L.length : Int)⟩ := by
  have h1 : ¬ p.line < 0 := by
    intro hneg
    unfold getLine at h
    rw [if_pos hneg] at h
    exact Option.noConfusion h
  have h2 : p.line.toNat < doc.length := by
    unfold getLine at h
    rw [if_neg h1] at h
    exact (List.getElem?_eq_some.mp h).1
  unfold clipPos
  dsimp only
  rw [show max 0 (min p.line ((doc.length : Int) - 1)) = p.line by omega]
  rw [lineLen_at doc p.line L h]
  rw [show max 0 (min p.ch (L.length : Int)) = (L.length : Int) by omega]

theorem clipPos_in_range_mk (doc : Doc) (ln ch : Int) (L : Str)
    (h : getLine doc ln = some L) (h0 : 0 ≤ ch) (hc : ch ≤ (L.length : Int)) :
    clipPos doc ⟨ln, ch⟩ = ⟨ln, ch⟩ :=
  clipPos_in_range doc ⟨ln, ch⟩ L h h0 hc

theorem clipPos_clamps_ch_mk (doc : Doc) (ln ch : Int) (L : Str)
    (h : getLine doc ln = some L) (hc : (L.length : Int) ≤ ch) :
    clipPos doc ⟨ln, ch⟩ = ⟨ln, (L.length : Int)⟩ :=
  clipPos_clamps_ch doc ⟨ln, ch⟩ L h hc

theorem posLt_mk_line (l1 c1 l2 c2 : Int) (h : l1 < l2) : Pos.lt ⟨l1, c1⟩ ⟨l2, c2⟩ :=
  Or.inl h

theorem not_posLt_mk (l1 c1 l2 c2 : Int) (h : l2 < l1 ∨ (l2 = l1 ∧ c2 ≤ c1)) :
    ¬ Pos.lt ⟨l1, c1⟩ ⟨l2, c2⟩ := by
  intro hcon
  simp only [Pos.lt] at hcon
  omega

/-! Claim theorems and witnesses. -/

/-- C1: the spec demands that an inline-token toggle leave every installed
selection denoting exactly its original substring; the code breaks this (a
claim-right/code-wrong case).  At buffer `["abc**yz"]` with the single
selection (0,5)-(0,6), which denotes `"y"`, the lib-edition bold toggle
produces buffer `["abcy**z"]` but installs the selection (0,5)-(0,2), which
denotes `"cy*"` — the `from()`/`to()` aliases re-resolve against the already
mutated head during the adjustment, so the shift lands on the wrong end. -/
theorem c1_inline_toggle_loses_selection_content :
    LibEd.toggleInlineFormatting (str "**") [str "__"] [str "abc**yz"]
        [⟨⟨0, 5⟩, ⟨0, 6⟩⟩]
      = ([str "abcy**z"], [⟨⟨0, 5⟩, ⟨0, 2⟩⟩])
    ∧ getRangeStr [str "abc**yz"] ⟨0, 5⟩ ⟨0, 6⟩ = str "y"
    ∧ getRangeStr [str "abcy**z"] ⟨0, 2⟩ ⟨0, 5⟩ = str "cy*"
    ∧ str "cy*" ≠ str "y" := by decide

/-- C2 counterexample: on the buffer `["3. a", "4. b", "5. c"]` with the
selection on line 0, `toggleOrderedList` strips the marker but renumbers the
following contiguous run to 1, 2, … (the code passes base number 0), not to
the prior numbers minus one; the claimed `["a", "3. b", "4. c"]` is not what
the code produces. -/
theorem c2_renumber_counterexample :
    (LibEd.toggleOrderedList [str "3. a", str "4. b", str "5. c"] [caret 0 0]).1
      = [str "a", str "1. b", str "2. c"]
    ∧ [str "a", str "1. b", str "2. c"] ≠ [str "a", str "3. b", str "4. c"] := by decide

/-- C3: the claim (and spec §4.3) promise exactly one extra leading newline
per selection whose end line is non-empty, but `insertBlockTemplateBelow`
mutates the shared `template` variable, so the extra newline accumulates: on
`["a", "b", "c"]` with carets on lines 0 and 2, the second horizontal rule is
separated from `"c"` by TWO blank lines instead of one. -/
theorem c3_block_template_newline_accumulates :
    LibEd.insertHorizontalLine (str "---") [str "a", str "b", str "c"]
        [caret 0 0, caret 2 0]
      = [str "a", str "", str "---", str "", str "", str "b",
         str "c", str "", str "", str "---", str "", str ""] := by decide

/-- C4 counterexample: toggling bold twice does not always restore the
baseline.  On `["****x****"]` with the selection (0,4)-(0,5) around `"x"`,
both toggles find the tokens already present and unwrap, yielding `["x"]`
with selection (0,0)-(0,1) — not the original buffer and selection. -/
theorem c4_double_toggle_counterexample :
    (let r1 := SrcEd.toggleInlineFormatting (str "**") [str "****x****"] [⟨⟨0, 4⟩, ⟨0, 5⟩⟩]
     SrcEd.toggleInlineFormatting (str "**") r1.1 r1.2)
      = ([str "x"], [⟨⟨0, 0⟩, ⟨0, 1⟩⟩])
    ∧ (([str "x"], [⟨⟨0, 0⟩, ⟨0, 1⟩⟩]) : Doc × List Range)
      ≠ ([str "****x****"], [⟨⟨0, 4⟩, ⟨0, 5⟩⟩]) := by decide

/-- C5 counterexample: the two editions are not extensionally equal even on
an operation with no alternative tokens.  On `["ab", "cd"]` with the single
multi-line selection (0,1)-(1,1), `toggleStrikethrough` produces the same
buffer in both editions but the src edition installs head (1,3) (it shifts
both ends by the prefix delta) while the lib edition installs head (1,1). -/
theorem c5_editions_differ_counterexample :
    SrcEd.toggleStrikethrough [str "ab", str "cd"] [⟨⟨0, 1⟩, ⟨1, 1⟩⟩]
      ≠ LibEd.toggleStrikethrough [str "ab", str "cd"] [⟨⟨0, 1⟩, ⟨1, 1⟩⟩] := by decide

/-- C7 counterexample: the claim bounds the stripped run at six '#'
characters, but the source regex `^((#)*( )?)` strips a run of any length:
`setHeadingLevel 0` on `["#######"]` (seven '#') yields `[""]`, while the
claim's rule leaves `"#"`. -/
theorem c7_heading_counterexample :
    (LibEd.setHeadingLevel 0 [str "#######"] [caret 0 0]).1 = [([] : Str)]
    ∧ claimHeadingRewrite 0 (str "#######") = str "#"
    ∧ ([] : Str) ≠ str "#" := by decide

/-- C2 amended: on a line that already starts with an ordered-list marker,
`toggleOrderedList` strips the marker and renumbers the immediately following
contiguous run of ordered-list lines to 1, 2, 3, … (the code passes base
number 0 to the renumbering pass) — not to each line's prior number minus
one; in particular `["3. a", "4. b", "5. c"]` becomes `["a", "1. b", "2. c"]`. -/
theorem c2_ordered_strip_renumbers_from_one (pre post : List Str) (L : Str) (c : Int)
    (hord : ordMatch L = true) (hL : '\n' ∉ L) (hpost : ∀ l ∈ post, '\n' ∉ l) :
    (LibEd.toggleOrderedList (pre ++ L :: post) [caret (pre.length : Int) c]).1
      = pre ++ (L.drop ((ordLen L).getD 0)) :: specRenumber 0 post := by
  unfold LibEd.toggleOrderedList LibEd.replaceTokenAtLineStart
  dsimp only
  rw [rtalsGo_fst_single, caret_fromP, caret_toP]
  dsimp only
  rw [show ((pre.length : Int) - (pre.length : Int) + 1).toNat = 1 by omega]
  rw [rtalsLines_fst_one]
  dsimp only
  rw [getLine_at]
  dsimp only [Option.getD_some]
  rw [hord, if_neg (show ¬(true = false) by decide)]
  dsimp only
  unfold LibEd.processNextLinesOfOrderedList
  rw [show pre ++ L :: post = (pre ++ [L]) ++ post by simp]
  rw [show (((pre ++ [L]) ++ post : List Str).length : Nat) + 1
      = ((pre ++ [L]) ++ post : List Str).length + 1 from rfl]
  rw [show ((pre.length : Int) + 1) = (((pre ++ [L] : List Str)).length : Int) by simp]
  rw [pnlGo_spec post (pre ++ [L]) 0 (((pre ++ [L]) ++ post : List Str).length + 1)
    (by simp; omega) hpost]
  have hshape : (pre ++ [L]) ++ specRenumber 0 post = pre ++ L :: specRenumber 0 post := by
    simp
  rw [hshape]
  rw [replaceRange_at_line pre (specRenumber 0 post) L (L.drop ((ordLen L).getD 0)) 0
    ((L.length : Nat) : Int) hL (fun hmem => hL (List.mem_of_mem_drop hmem))]
  simp

/-- Witness for C2's amended statement at the claim's example. -/
theorem c2_witness :
    (LibEd.toggleOrderedList [str "3. a", str "4. b", str "5. c"] [caret 0 0]).1
      = [str "a", str "1. b", str "2. c"] := by
  have h := c2_ordered_strip_renumbers_from_one [] [str "4. b", str "5. c"] (str "3. a") 0
    (by decide) (by decide) (by decide)
  simpa using h

theorem listNumber_matches_spec (prev : Option Str) :
    (match prev with
     | none => 1
     | some prevLine =>
       if prevLine.isEmpty = true then 1
       else if ordMatch prevLine = false then 1
       else strToNat (prevLine.take (dotIdx prevLine)) + 1)
      = specNextNumber prev := by
  cases prev with
  | none => rfl
  | some p =>
    cases p with
    | nil => rfl
    | cons c cs =>
      by_cases hm : ordMatch (c :: cs) = true
      · simp [specNextNumber, hm]
      · have hm' : ordMatch (c :: cs) = false := by
          cases h : ordMatch (c :: cs)
          · rfl
          · exact absurd h hm
        simp [specNextNumber, hm']

/-- C6 (confirmed): on a line without an ordered-list marker,
`toggleOrderedList` prepends `"<n>. "` — replacing an existing bullet marker
if present — where n is 1 when the previous line is not an ordered-list item
and the previous line's number plus 1 otherwise, and renumbers the contiguous
following ordered-list lines to continue incrementing from n. -/
theorem c6_ordered_insert_numbering (pre post : List Str) (L : Str) (c : Int)
    (hord : ordMatch L = false) (hL : '\n' ∉ L) (hpost : ∀ l ∈ post, '\n' ∉ l) :
    (LibEd.toggleOrderedList (pre ++ L :: post) [caret (pre.length : Int) c]).1
      = pre ++ (natStr (specNextNumber pre.getLast?) ++ str ". "
          ++ (if unordMatch L = true then L.drop ((unordLen L).getD 0) else L))
        :: specRenumber (specNextNumber pre.getLast?) post := by
  unfold LibEd.toggleOrderedList LibEd.replaceTokenAtLineStart
  dsimp only
  rw [rtalsGo_fst_single, caret_fromP, caret_toP]
  dsimp only
  rw [show ((pre.length : Int) - (pre.length : Int) + 1).toNat = 1 by omega]
  rw [rtalsLines_fst_one]
  dsimp only
  rw [getLine_at]
  dsimp only [Option.getD_some]
  rw [hord, if_pos rfl]
  rw [getLine_prev, listNumber_matches_spec]
  unfold LibEd.processNextLinesOfOrderedList
  rw [show pre ++ L :: post = (pre ++ [L]) ++ post by simp]
  rw [show ((pre.length : Int) + 1) = (((pre ++ [L] : List Str)).length : Int) by simp]
  rw [pnlGo_spec post (pre ++ [L]) (specNextNumber pre.getLast?)
    (((pre ++ [L]) ++ post : List Str).length + 1) (by simp; omega) hpost]
  have hshape : (pre ++ [L]) ++ specRenumber (specNextNumber pre.getLast?) post
      = pre ++ L :: specRenumber (specNextNumber pre.getLast?) post := by simp
  rw [hshape]
  have hnlnum : ∀ tail : Str, '\n' ∉ tail →
      '\n' ∉ natStr (specNextNumber pre.getLast?) ++ str ". " ++ tail := by
    intro tail htail hmem
    rcases List.mem_append.mp hmem with hmem | hmem
    · rcases List.mem_append.mp hmem with hmem | hmem
      · exact nl_not_mem_natStr _ hmem
      · revert hmem; decide
    · exact htail hmem
  by_cases hu : unordMatch L = true
  · rw [hu, if_neg (show ¬(true = false) by decide), if_pos rfl]
    rw [replaceRange_at_line pre (specRenumber (specNextNumber pre.getLast?) post) L _ 0
      ((L.length : Nat) : Int) hL
      (hnlnum _ (fun hmem => hL (List.mem_of_mem_drop hmem)))]
    simp
  · have hu' : unordMatch L = false := by
      cases h : unordMatch L
      · rfl
      · exact absurd h hu
    rw [hu', if_pos rfl, if_neg (show ¬(false = true) by decide)]
    rw [replaceRange_at_line pre (specRenumber (specNextNumber pre.getLast?) post) L _ 0
      ((L.length : Nat) : Int) hL (hnlnum _ hL)]
    simp

/-- Witness for C6 at the claim's example: after `"1. a"`, toggling a blank
next line yields `"2. "`; with further contiguous ordered lines below they
continue incrementing. -/
theorem c6_witness :
    (LibEd.toggleOrderedList [str "1. a", str ""] [caret 1 0]).1
      = [str "1. a", str "2. "]
    ∧ (LibEd.toggleOrderedList [str "1. a", str "x", str "1. b", str "2. c"] [caret 1 0]).1
      = [str "1. a", str "2. x", str "3. b", str "4. c"] := by
  constructor
  · have h := c6_ordered_insert_numbering [str "1. a"] [] (str "") 0
      (by decide) (by decide) (by decide)
    simpa using h
  · have h := c6_ordered_insert_numbering [str "1. a"] [str "1. b", str "2. c"] (str "x") 0
      (by decide) (by decide) (by decide)
    simpa using h

/-- C7 amended: `setHeadingLevel(level)` rewrites each selected line by
stripping the whole leading run of '#' characters (of any length — the claim's
"zero to six" bound does not hold, see the counterexample) plus one following
space if present, and prepending `level`-many '#' plus one space (nothing for
level 0); stated for a cursor on an arbitrary line of an arbitrary buffer. -/
theorem c7_heading_rewrite (pre post : List Str) (L : Str) (level : Nat) (c : Int)
    (hlevel : level ≤ 6) (hL : '\n' ∉ L) :
    (LibEd.setHeadingLevel level (pre ++ L :: post) [caret (pre.length : Int) c]).1
      = pre ++ replaceHeadingMatch (headingToken level) L :: post := by
  unfold LibEd.setHeadingLevel LibEd.replaceTokenAtLineStart
  dsimp only
  rw [rtalsGo_fst_single]
  rw [caret_fromP, caret_toP]
  dsimp only
  rw [show ((pre.length : Int) - (pre.length : Int) + 1).toNat = 1 by omega]
  rw [rtalsLines_fst_one]
  dsimp only
  rw [getLine_at]
  dsimp only [Option.getD_some]
  rw [replaceRange_at_line pre post L _ 0 (L.length : Int) hL (nl_not_mem_rhm level hL)]
  simp

/-- Witness for C7 at the claim's two examples. -/
theorem c7_witness :
    (LibEd.setHeadingLevel 0 [str "## Title"] [caret 0 0]).1 = [str "Title"]
    ∧ (LibEd.setHeadingLevel 3 [str "Title"] [caret 0 0]).1 = [str "### Title"] :=
  ⟨c7_heading_rewrite [] [] (str "## Title") 0 0 (by decide) (by decide),
   c7_heading_rewrite [] [] (str "Title") 3 0 (by decide) (by decide)⟩

/-- C9 (confirmed): the requested prefix-removal range starts at a column no
smaller than 0 and no larger than `from().ch`, and the requested
suffix-removal range ends at a column no smaller than `to().ch` and no larger
than the line length — the clamped expressions `prefixStartPos`/`suffixEndPos`
used by both editions' inline toggles never request an out-of-range mutation. -/
theorem c9_clamped_ranges (f t : Pos) (len : Nat) (endLineLength : Int)
    (hf : 0 ≤ f.ch) (ht : t.ch ≤ endLineLength) :
    (0 ≤ (prefixStartPos f len).ch ∧ (prefixStartPos f len).ch ≤ f.ch)
    ∧ (t.ch ≤ (suffixEndPos t len endLineLength).ch
       ∧ (suffixEndPos t len endLineLength).ch ≤ endLineLength) := by
  unfold prefixStartPos suffixEndPos
  dsimp only
  constructor
  · split <;> omega
  · split <;> omega

theorem adjustFollowing_length (fL tL dB dA : Int) (l : List Range) :
    (LibEd.adjustFollowing fL tL dB dA l).length = l.length := by
  induction l with
  | nil => rfl
  | cons s ss ih =>
    simp only [LibEd.adjustFollowing]
    split
    · simp [ih]
    · simp

theorem tifGo_length (token : Str) (altTokens : List Str) :
    ∀ (fuel : Nat) (doc : Doc) (sels : List Range),
      ((LibEd.tifGo token altTokens fuel doc sels).2).length = min fuel sels.length := by
  intro fuel
  induction fuel with
  | zero => intro doc sels; simp [LibEd.tifGo]
  | succ fuel ih =>
    intro doc sels
    cases sels with
    | nil => simp [LibEd.tifGo]
    | cons s rest =>
      simp only [LibEd.tifGo, List.length_cons, ih, adjustFollowing_length]
      omega

theorem iitGo_length (bTpl aTpl : Str) :
    ∀ (fuel : Nat) (doc : Doc) (sels : List Range),
      ((LibEd.iitGo bTpl aTpl fuel doc sels).2).length = min fuel sels.length := by
  intro fuel
  induction fuel with
  | zero => intro doc sels; simp [LibEd.iitGo]
  | succ fuel ih =>
    intro doc sels
    cases sels with
    | nil => simp [LibEd.iitGo]
    | cons s rest =>
      simp only [LibEd.iitGo, List.length_cons, ih, adjustFollowing_length]
      omega

theorem icbGo_length (pTok : Str) :
    ∀ (fuel : Nat) (doc : Doc) (sels : List Range),
      ((LibEd.icbGo pTok fuel doc sels).2).length = min fuel sels.length := by
  intro fuel
  induction fuel with
  | zero => intro doc sels; simp [LibEd.icbGo]
  | succ fuel ih =>
    intro doc sels
    cases sels with
    | nil => simp [LibEd.icbGo]
    | cons s rest =>
      simp only [LibEd.icbGo, List.length_cons, ih, List.length_map]
      omega

theorem rtalsGo_length (replaceFn : Doc → Str → Int → Doc × Str) (doc : Doc)
    (sels : List Range) :
    ((LibEd.rtalsGo replaceFn doc sels).2).length = sels.length := by
  induction sels generalizing doc with
  | nil => rfl
  | cons s rest ih => simp only [LibEd.rtalsGo, List.length_cons, ih]

theorem adjustFollowing_take (fL tL dB dA : Int) :
    ∀ (l : List Range) (n : Nat),
      (LibEd.adjustFollowing fL tL dB dA l).take n
        = LibEd.adjustFollowing fL tL dB dA (l.take n) := by
  intro l
  induction l with
  | nil => intro n; simp [LibEd.adjustFollowing]
  | cons s ss ih =>
    intro n
    cases n with
    | zero => simp [LibEd.adjustFollowing]
    | succ n =>
      rw [List.take_succ_cons]
      simp only [LibEd.adjustFollowing]
      split
      · rw [List.take_succ_cons, ih]
      · rw [List.take_succ_cons]

theorem tifGo_take (token : Str) (altTokens : List Str) :
    ∀ (n fuel : Nat) (doc : Doc) (sels : List Range), n ≤ fuel →
      ((LibEd.tifGo token altTokens fuel doc sels).2).take n
        = (LibEd.tifGo token altTokens n doc (sels.take n)).2 := by
  intro n
  induction n with
  | zero => intro fuel doc sels h; simp [LibEd.tifGo]
  | succ n ih =>
    intro fuel doc sels h
    cases fuel with
    | zero => omega
    | succ fuel =>
      cases sels with
      | nil => simp [LibEd.tifGo]
      | cons s rest =>
        rw [List.take_succ_cons]
        simp only [LibEd.tifGo]
        rw [List.take_succ_cons, ih fuel _ _ (by omega), adjustFollowing_take]

theorem iitGo_take (bTpl aTpl : Str) :
    ∀ (n fuel : Nat) (doc : Doc) (sels : List Range), n ≤ fuel →
      ((LibEd.iitGo bTpl aTpl fuel doc sels).2).take n
        = (LibEd.iitGo bTpl aTpl n doc (sels.take n)).2 := by
  intro n
  induction n with
  | zero => intro fuel doc sels h; simp [LibEd.iitGo]
  | succ n ih =>
    intro fuel doc sels h
    cases fuel with
    | zero => omega
    | succ fuel =>
      cases sels with
      | nil => simp [LibEd.iitGo]
      | cons s rest =>
        rw [List.take_succ_cons]
        simp only [LibEd.iitGo]
        rw [List.take_succ_cons, ih fuel _ _ (by omega), adjustFollowing_take]

theorem icbGo_take (pTok : Str) :
    ∀ (n fuel : Nat) (doc : Doc) (sels : List Range), n ≤ fuel →
      ((LibEd.icbGo pTok fuel doc sels).2).take n
        = (LibEd.icbGo pTok n doc (sels.take n)).2 := by
  intro n
  induction n with
  | zero => intro fuel doc sels h; simp [LibEd.icbGo]
  | succ n ih =>
    intro fuel doc sels h
    cases fuel with
    | zero => omega
    | succ fuel =>
      cases sels with
      | nil => simp [LibEd.icbGo]
      | cons s rest =>
        rw [List.take_succ_cons]
        simp only [LibEd.icbGo]
        rw [List.take_succ_cons, ih fuel _ _ (by omega), ← List.map_take]

theorem rtalsGo_take (replaceFn : Doc → Str → Int → Doc × Str) :
    ∀ (n : Nat) (doc : Doc) (sels : List Range),
      ((LibEd.rtalsGo replaceFn doc sels).2).take n
        = (LibEd.rtalsGo replaceFn doc (sels.take n)).2 := by
  intro n
  induction n with
  | zero => intro doc sels; simp [LibEd.rtalsGo]
  | succ n ih =>
    intro doc sels
    cases sels with
    | nil => simp [LibEd.rtalsGo]
    | cons s rest =>
      rw [List.take_succ_cons]
      simp only [LibEd.rtalsGo]
      rw [List.take_succ_cons, ih]

/-- C10 (confirmed): every selection-rewriting operation installs via
`setSelections` one output selection per input selection, in input order, the
i-th derived from the i-th input.  Formally, for every split of the input list
as `xs ++ ys`: the installed list has exactly the input's length (nothing
dropped or created), and its first `xs.length` elements are exactly the
per-element clips of the selections the loop computes when run on `xs` alone —
so each output is produced by its own input's iteration, unaffected by the
later selections, and no reordering or cross-derivation can occur. -/
theorem c10_selections_in_order (doc : Doc) (xs ys : List Range) (token : Str)
    (altTokens : List Str) (replaceFn : Doc → Str → Int → Doc × Str)
    (bTpl aTpl pTok : Str) :
    (((LibEd.toggleInlineFormatting token altTokens doc (xs ++ ys)).2).length
        = xs.length + ys.length
      ∧ ((LibEd.toggleInlineFormatting token altTokens doc (xs ++ ys)).2).take xs.length
        = ((LibEd.tifGo token altTokens xs.length doc xs).2).map
            (clipRange (LibEd.toggleInlineFormatting token altTokens doc (xs ++ ys)).1))
    ∧ (((LibEd.replaceTokenAtLineStart replaceFn doc (xs ++ ys)).2).length
        = xs.length + ys.length
      ∧ ((LibEd.replaceTokenAtLineStart replaceFn doc (xs ++ ys)).2).take xs.length
        = ((LibEd.rtalsGo replaceFn doc xs).2).map
            (clipRange (LibEd.replaceTokenAtLineStart replaceFn doc (xs ++ ys)).1))
    ∧ (((LibEd.insertCodeBlock pTok doc (xs ++ ys)).2).length = xs.length + ys.length
      ∧ ((LibEd.insertCodeBlock pTok doc (xs ++ ys)).2).take xs.length
        = ((LibEd.icbGo pTok xs.length doc xs).2).map
            (clipRange (LibEd.insertCodeBlock pTok doc (xs ++ ys)).1))
    ∧ (((LibEd.insertInlineTemplate bTpl aTpl doc (xs ++ ys)).2).length
        = xs.length + ys.length
      ∧ ((LibEd.insertInlineTemplate bTpl aTpl doc (xs ++ ys)).2).take xs.length
        = ((LibEd.iitGo bTpl aTpl xs.length doc xs).2).map
            (clipRange (LibEd.insertInlineTemplate bTpl aTpl doc (xs ++ ys)).1)) := by
  refine ⟨⟨?_, ?_⟩, ⟨?_, ?_⟩, ⟨?_, ?_⟩, ⟨?_, ?_⟩⟩
  · simp [LibEd.toggleInlineFormatting, setSelections, tifGo_length]
  · simp only [LibEd.toggleInlineFormatting, setSelections]
    rw [← List.map_take, tifGo_take token altTokens xs.length (xs ++ ys).length doc
      (xs ++ ys) (by simp), List.take_left]
  · simp [LibEd.replaceTokenAtLineStart, setSelections, rtalsGo_length]
  · simp only [LibEd.replaceTokenAtLineStart, setSelections]
    rw [← List.map_take, rtalsGo_take replaceFn xs.length doc (xs ++ ys), List.take_left]
  · simp [LibEd.insertCodeBlock, setSelections, icbGo_length]
  · simp only [LibEd.insertCodeBlock, setSelections]
    rw [← List.map_take, icbGo_take pTok xs.length (xs ++ ys).length doc
      (xs ++ ys) (by simp), List.take_left]
  · simp [LibEd.insertInlineTemplate, setSelections, iitGo_length]
  · simp only [LibEd.insertInlineTemplate, setSelections]
    rw [← List.map_take, iitGo_take bTpl aTpl xs.length (xs ++ ys).length doc
      (xs ++ ys) (by simp), List.take_left]

theorem rtalsLines_eq (replaceFn : Doc → Str → Int → Doc × Str) (fromLine toLine : Int) :
    ∀ (count : Nat) (doc : Doc) (lineNumber : Int) (shiftFrom shiftTo : Int),
      SrcEd.rtalsLines replaceFn fromLine toLine doc lineNumber count shiftFrom shiftTo
        = LibEd.rtalsLines replaceFn fromLine toLine doc lineNumber count shiftFrom shiftTo := by
  intro count
  induction count with
  | zero => intro doc n sF sT; rfl
  | succ count ih =>
    intro doc n sF sT
    simp only [SrcEd.rtalsLines, LibEd.rtalsLines, ih]

theorem rtalsGo_eq (replaceFn : Doc → Str → Int → Doc × Str) (doc : Doc)
    (sels : List Range) :
    SrcEd.rtalsGo replaceFn doc sels = LibEd.rtalsGo replaceFn doc sels := by
  induction sels generalizing doc with
  | nil => rfl
  | cons s rest ih =>
    simp only [SrcEd.rtalsGo, LibEd.rtalsGo, rtalsLines_eq, ih]

theorem replaceTokenAtLineStart_eq (replaceFn : Doc → Str → Int → Doc × Str) (doc : Doc)
    (sels : List Range) :
    SrcEd.replaceTokenAtLineStart replaceFn doc sels
      = LibEd.replaceTokenAtLineStart replaceFn doc sels := by
  unfold SrcEd.replaceTokenAtLineStart LibEd.replaceTokenAtLineStart
  rw [rtalsGo_eq]

theorem pnlGo_eq :
    ∀ (fuel : Nat) (doc : Doc) (n : Int) (k : Nat),
      SrcEd.pnlGo doc n k fuel = LibEd.pnlGo doc n k fuel := by
  intro fuel
  induction fuel with
  | zero => intro doc n k; rfl
  | succ fuel ih =>
    intro doc n k
    simp only [SrcEd.pnlGo, LibEd.pnlGo, ih]

theorem icbGo_eq :
    ∀ (fuel : Nat) (doc : Doc) (sels : List Range),
      SrcEd.icbGo fuel doc sels = LibEd.icbGo (str "```") fuel doc sels := by
  intro fuel
  induction fuel with
  | zero => intro doc sels; cases sels <;> rfl
  | succ fuel ih =>
    intro doc sels
    cases sels with
    | nil => rfl
    | cons s rest => simp only [SrcEd.icbGo, LibEd.icbGo, ih]

/-- C5 amended: the operations whose bodies are duplicated verbatim between
the two editions — the line-prefix rewrites and the code-block insertion —
do produce identical buffers and identical installed selections on every
input, once the lib edition is given the tokens hard-coded in the src edition
(`'-'` bullet, fence "three backticks"); the inline toggles do not (see the
counterexample). -/
theorem c5_shared_lineops_agree (doc : Doc) (sels : List Range) (level : Nat) :
    SrcEd.setHeadingLevel level doc sels = LibEd.setHeadingLevel level doc sels
    ∧ SrcEd.toggleQuote doc sels = LibEd.toggleQuote doc sels
    ∧ SrcEd.toggleUnorderedList doc sels = LibEd.toggleUnorderedList (str "-") doc sels
    ∧ SrcEd.toggleOrderedList doc sels = LibEd.toggleOrderedList doc sels
    ∧ SrcEd.insertCodeBlock doc sels = LibEd.insertCodeBlock (str "```") doc sels := by
  have hbul : str "-" ++ str " " = str "- " := by decide
  refine ⟨?_, ?_, ?_, ?_, ?_⟩
  · exact replaceTokenAtLineStart_eq _ doc sels
  · exact replaceTokenAtLineStart_eq _ doc sels
  · unfold SrcEd.toggleUnorderedList LibEd.toggleUnorderedList
    rw [hbul, replaceTokenAtLineStart_eq]
  · unfold SrcEd.toggleOrderedList LibEd.toggleOrderedList
    unfold SrcEd.processNextLinesOfOrderedList LibEd.processNextLinesOfOrderedList
    simp only [pnlGo_eq]
    rw [replaceTokenAtLineStart_eq]
  · unfold SrcEd.insertCodeBlock LibEd.insertCodeBlock
    rw [icbGo_eq]

/-- Witness for C9 at a concrete instance. -/
theorem c9_witness :
    (0 ≤ (prefixStartPos ⟨0, 1⟩ 2).ch ∧ (prefixStartPos ⟨0, 1⟩ 2).ch ≤ (⟨0, 1⟩ : Pos).ch)
    ∧ ((⟨0, 2⟩ : Pos).ch ≤ (suffixEndPos ⟨0, 2⟩ 2 3).ch
       ∧ (suffixEndPos ⟨0, 2⟩ 2 3).ch ≤ 3) :=
  c9_clamped_ranges ⟨0, 1⟩ ⟨0, 2⟩ 2 3 (by decide) (by decide)

/-- C8 (confirmed): on a single-line non-empty selection starting at column
> 0, `insertCodeBlock` produces, in order: the text before the selection on
its own line, an opening fence line, the selected content on its own line, a
closing fence line, and the line's remainder on a new line; the installed
selection spans exactly the content line, from column 0 to the content's
length (the buffer clips the request when the content is shorter than the
selection's original start column). -/
theorem c8_code_block_wrap (pre post : List Str) (a b c tok : Str) (sel : Range)
    (ha : a ≠ []) (hb : b ≠ [])
    (hna : '\n' ∉ a) (hnb : '\n' ∉ b) (hnc : '\n' ∉ c) (hnt : '\n' ∉ tok)
    (hsel : (sel.anchor = ⟨(pre.length : Int), (a.length : Int)⟩
             ∧ sel.head = ⟨(pre.length : Int), ((a.length + b.length : Nat) : Int)⟩)
          ∨ (sel.head = ⟨(pre.length : Int), (a.length : Int)⟩
             ∧ sel.anchor = ⟨(pre.length : Int), ((a.length + b.length : Nat) : Int)⟩)) :
    (LibEd.insertCodeBlock tok (pre ++ (a ++ b ++ c) :: post) [sel]).1
      = pre ++ [a, tok, b, tok, c] ++ post
    ∧ ∃ s, (LibEd.insertCodeBlock tok (pre ++ (a ++ b ++ c) :: post) [sel]).2 = [s]
        ∧ s.fromP = ⟨(pre.length : Int) + 2, 0⟩
        ∧ s.toP = ⟨(pre.length : Int) + 2, (b.length : Int)⟩ := by
  have hbpos : 0 < b.length := List.length_pos.mpr hb
  have hapos : 0 < a.length := List.length_pos.mpr ha
  have hline : getLine (pre ++ [a, tok, b, tok, c] ++ post) ((pre.length : Int) + 2)
      = some b := by
    have hsh : pre ++ [a, tok, b, tok, c] ++ post
        = (pre ++ [a, tok]) ++ b :: ([tok, c] ++ post) := by simp
    rw [hsh, show (pre.length : Int) + 2 = (((pre ++ [a, tok] : List Str)).length : Int) by
      simp only [List.length_append, List.length_cons, List.length_nil]; push_cast; ring]
    exact getLine_at _ _ _
  obtain ⟨anc, hd⟩ := sel
  rcases hsel with ⟨h1, h2⟩ | ⟨h1, h2⟩ <;> dsimp only at h1 h2 <;> subst h1 h2
  · -- anchor is from()
    have hlt1 : Pos.lt ⟨(pre.length : Int), (a.length : Int)⟩
        ⟨(pre.length : Int), ((a.length + b.length : Nat) : Int)⟩ :=
      (posLt_same_line _ _ _).mpr (by omega)
    have hfromP : ((⟨⟨(pre.length : Int), (a.length : Int)⟩,
        ⟨(pre.length : Int), ((a.length + b.length : Nat) : Int)⟩⟩ : Range)).fromP
        = ⟨(pre.length : Int), (a.length : Int)⟩ := by
      unfold Range.fromP; rw [if_pos hlt1]
    have htoP : ((⟨⟨(pre.length : Int), (a.length : Int)⟩,
        ⟨(pre.length : Int), ((a.length + b.length : Nat) : Int)⟩⟩ : Range)).toP
        = ⟨(pre.length : Int), ((a.length + b.length : Nat) : Int)⟩ := by
      unfold Range.toP; rw [if_pos hlt1]
    have hempty : ((⟨⟨(pre.length : Int), (a.length : Int)⟩,
        ⟨(pre.length : Int), ((a.length + b.length : Nat) : Int)⟩⟩ : Range)).emptySel
        = false := by
      simp only [Range.emptySel, decide_eq_false_iff_not]
      intro hq
      rw [Pos.mk.injEq] at hq
      omega
    unfold LibEd.insertCodeBlock
    simp only [List.length_cons, List.length_nil, LibEd.icbGo, List.map_nil]
    rw [hfromP, htoP, hempty]
    dsimp only
    rw [if_pos (show ((a.length : Nat) : Int) > 0 by omega)]
    dsimp only
    rw [if_neg (show ¬ false = true by decide)]
    rw [if_pos rfl]
    rw [icb_doc_step pre post a b c tok hna hnb hnc hnt]
    rw [updTo_of_lt ⟨⟨(pre.length : Int), (a.length : Int)⟩,
      ⟨(pre.length : Int), ((a.length + b.length : Nat) : Int)⟩⟩ _ hlt1]
    dsimp only
    rw [show ((4 : Int) - 2) = 2 by norm_num]
    rw [updTo_of_lt ⟨⟨(pre.length : Int), (a.length : Int)⟩,
      ⟨(pre.length : Int) + 2, ((a.length + b.length : Nat) : Int)⟩⟩ _
      (posLt_mk_line _ _ _ _ (by omega))]
    dsimp only
    rw [show (((a.length + b.length : Nat) : Int)) - (a.length : Int) = (b.length : Int) by
      push_cast; ring]
    rw [updFrom_of_lt ⟨⟨(pre.length : Int), (a.length : Int)⟩,
      ⟨(pre.length : Int) + 2, (b.length : Int)⟩⟩ _ (posLt_mk_line _ _ _ _ (by omega))]
    dsimp only
    by_cases hab : (a.length : Int) < (b.length : Int)
    · rw [updFrom_of_lt ⟨⟨(pre.length : Int) + 2, (a.length : Int)⟩,
        ⟨(pre.length : Int) + 2, (b.length : Int)⟩⟩ _ ((posLt_same_line _ _ _).mpr hab)]
      dsimp only
      refine ⟨rfl, _, rfl, ?_, ?_⟩
      · show (clipRange _ _).fromP = _
        unfold clipRange
        dsimp only
        rw [clipPos_in_range_mk _ _ _ b hline (by omega) (by omega),
          clipPos_in_range_mk _ _ _ b hline (by omega) (by omega)]
        unfold Range.fromP
        rw [if_pos ((posLt_same_line _ _ _).mpr (by omega))]
      · show (clipRange _ _).toP = _
        unfold clipRange
        dsimp only
        rw [clipPos_in_range_mk _ _ _ b hline (by omega) (by omega),
          clipPos_in_range_mk _ _ _ b hline (by omega) (by omega)]
        unfold Range.toP
        rw [if_pos ((posLt_same_line _ _ _).mpr (by omega))]
    · rw [updFrom_of_not_lt ⟨⟨(pre.length : Int) + 2, (a.length : Int)⟩,
        ⟨(pre.length : Int) + 2, (b.length : Int)⟩⟩ _
        (not_posLt_mk _ _ _ _ (Or.inr ⟨rfl, by omega⟩))]
      dsimp only
      refine ⟨rfl, _, rfl, ?_, ?_⟩
      · show (clipRange _ _).fromP = _
        unfold clipRange
        dsimp only
        rw [clipPos_clamps_ch_mk _ _ _ b hline (by omega),
          clipPos_in_range_mk _ _ _ b hline (by omega) (by omega)]
        unfold Range.fromP
        rw [if_neg (not_posLt_mk _ _ _ _ (Or.inr ⟨rfl, by omega⟩))]
      · show (clipRange _ _).toP = _
        unfold clipRange
        dsimp only
        rw [clipPos_clamps_ch_mk _ _ _ b hline (by omega),
          clipPos_in_range_mk _ _ _ b hline (by omega) (by omega)]
        unfold Range.toP
        rw [if_neg (not_posLt_mk _ _ _ _ (Or.inr ⟨rfl, by omega⟩))]
  · -- head is from()
    have hnlt : ¬ Pos.lt ⟨(pre.length : Int), ((a.length + b.length : Nat) : Int)⟩
        ⟨(pre.length : Int), (a.length : Int)⟩ :=
      not_posLt_mk _ _ _ _ (Or.inr ⟨rfl, by omega⟩)
    have hfromP : ((⟨⟨(pre.length : Int), ((a.length + b.length : Nat) : Int)⟩,
        ⟨(pre.length : Int), (a.length : Int)⟩⟩ : Range)).fromP
        = ⟨(pre.length : Int), (a.length : Int)⟩ := by
      unfold Range.fromP; rw [if_neg hnlt]
    have htoP : ((⟨⟨(pre.length : Int), ((a.length + b.length : Nat) : Int)⟩,
        ⟨(pre.length : Int), (a.length : Int)⟩⟩ : Range)).toP
        = ⟨(pre.length : Int), ((a.length + b.length : Nat) : Int)⟩ := by
      unfold Range.toP; rw [if_neg hnlt]
    have hempty : ((⟨⟨(pre.length : Int), ((a.length + b.length : Nat) : Int)⟩,
        ⟨(pre.length : Int), (a.length : Int)⟩⟩ : Range)).emptySel = false := by
      simp only [Range.emptySel, decide_eq_false_iff_not]
      intro hq
      rw [Pos.mk.injEq] at hq
      omega
    unfold LibEd.insertCodeBlock
    simp only [List.length_cons, List.length_nil, LibEd.icbGo, List.map_nil]
    rw [hfromP, htoP, hempty]
    dsimp only
    rw [if_pos (show ((a.length : Nat) : Int) > 0 by omega)]
    dsimp only
    rw [if_neg (show ¬ false = true by decide)]
    rw [if_pos rfl]
    rw [icb_doc_step pre post a b c tok hna hnb hnc hnt]
    rw [updTo_of_not_lt ⟨⟨(pre.length : Int), ((a.length + b.length : Nat) : Int)⟩,
      ⟨(pre.length : Int), (a.length : Int)⟩⟩ _ hnlt]
    dsimp only
    rw [show ((4 : Int) - 2) = 2 by norm_num]
    rw [updTo_of_not_lt ⟨⟨(pre.length : Int) + 2, ((a.length + b.length : Nat) : Int)⟩,
      ⟨(pre.length : Int), (a.length : Int)⟩⟩ _
      (not_posLt_mk _ _ _ _ (Or.inl (by omega)))]
    dsimp only
    rw [show (((a.length + b.length : Nat) : Int)) - (a.length : Int) = (b.length : Int) by
      push_cast; ring]
    rw [updFrom_of_not_lt ⟨⟨(pre.length : Int) + 2, (b.length : Int)⟩,
      ⟨(pre.length : Int), (a.length : Int)⟩⟩ _
      (not_posLt_mk _ _ _ _ (Or.inl (by omega)))]
    dsimp only
    by_cases hab : (b.length : Int) < (a.length : Int)
    · rw [updFrom_of_lt ⟨⟨(pre.length : Int) + 2, (b.length : Int)⟩,
        ⟨(pre.length : Int) + 2, (a.length : Int)⟩⟩ _ ((posLt_same_line _ _ _).mpr hab)]
      dsimp only
      refine ⟨rfl, _, rfl, ?_, ?_⟩
      · show (clipRange _ _).fromP = _
        unfold clipRange
        dsimp only
        rw [clipPos_in_range_mk _ _ _ b hline (by omega) (by omega),
          clipPos_clamps_ch_mk _ _ _ b hline (by omega)]
        unfold Range.fromP
        rw [if_pos ((posLt_same_line _ _ _).mpr (by omega))]
      · show (clipRange _ _).toP = _
        unfold clipRange
        dsimp only
        rw [clipPos_in_range_mk _ _ _ b hline (by omega) (by omega),
          clipPos_clamps_ch_mk _ _ _ b hline (by omega)]
        unfold Range.toP
        rw [if_pos ((posLt_same_line _ _ _).mpr (by omega))]
    · rw [updFrom_of_not_lt ⟨⟨(pre.length : Int) + 2, (b.length : Int)⟩,
        ⟨(pre.length : Int) + 2, (a.length : Int)⟩⟩ _
        (not_posLt_mk _ _ _ _ (Or.inr ⟨rfl, by omega⟩))]
      dsimp only
      refine ⟨rfl, _, rfl, ?_, ?_⟩
      · show (clipRange _ _).fromP = _
        unfold clipRange
        dsimp only
        rw [clipPos_in_range_mk _ _ _ b hline (by omega) (by omega),
          clipPos_in_range_mk _ _ _ b hline (by omega) (by omega)]
        unfold Range.fromP
        rw [if_neg (not_posLt_mk _ _ _ _ (Or.inr ⟨rfl, by omega⟩))]
      · show (clipRange _ _).toP = _
        unfold clipRange
        dsimp only
        rw [clipPos_in_range_mk _ _ _ b hline (by omega) (by omega),
          clipPos_in_range_mk _ _ _ b hline (by omega) (by omega)]
        unfold Range.toP
        rw [if_neg (not_posLt_mk _ _ _ _ (Or.inr ⟨rfl, by omega⟩))]

/-- Witness for C8 at a concrete instance. -/
theorem c8_witness :
    (LibEd.insertCodeBlock (str "```") [str "xx" ++ str "ab" ++ str " yz"]
        [⟨⟨0, 2⟩, ⟨0, 4⟩⟩]).1
      = [str "xx", str "```", str "ab", str "```", str " yz"]
    ∧ ∃ s, (LibEd.insertCodeBlock (str "```") [str "xx" ++ str "ab" ++ str " yz"]
        [⟨⟨0, 2⟩, ⟨0, 4⟩⟩]).2 = [s]
        ∧ s.fromP = ⟨2, 0⟩ ∧ s.toP = ⟨2, 2⟩ := by
  have h := c8_code_block_wrap [] [] (str "xx") (str "ab") (str " yz") (str "```")
    ⟨⟨0, 2⟩, ⟨0, 4⟩⟩ (by decide) (by decide) (by decide) (by decide) (by decide) (by decide)
    (Or.inl ⟨by decide, by decide⟩)
  simpa using h

end MdSpec

namespace MdSpec

theorem fromP_same_line (l x y : Int) :
    ((⟨⟨l, x⟩, ⟨l, y⟩⟩ : Range)).fromP = ⟨l, min x y⟩ := by
  unfold Range.fromP
  by_cases h : Pos.lt ⟨l, x⟩ ⟨l, y⟩
  · rw [if_pos h, min_eq_left (le_of_lt ((posLt_same_line l x y).mp h))]
  · have hge : y ≤ x := by
      have hnlt : ¬ x < y := fun hx => h ((posLt_same_line l x y).mpr hx)
      omega
    rw [if_neg h, min_eq_right hge]

theorem toP_same_line (l x y : Int) :
    ((⟨⟨l, x⟩, ⟨l, y⟩⟩ : Range)).toP = ⟨l, max x y⟩ := by
  unfold Range.toP
  by_cases h : Pos.lt ⟨l, x⟩ ⟨l, y⟩
  · rw [if_pos h, max_eq_right (le_of_lt ((posLt_same_line l x y).mp h))]
  · have hge : y ≤ x := by
      have hnlt : ¬ x < y := fun hx => h ((posLt_same_line l x y).mpr hx)
      omega
    rw [if_neg h, max_eq_left hge]

theorem nl_nm_append {u v : Str} (hu : '\n' ∉ u) (hv : '\n' ∉ v) : '\n' ∉ u ++ v := by
  intro h
  rcases List.mem_append.mp h with h | h
  · exact hu h
  · exact hv h

theorem tif_wrap_step (pre post : List Str) (a b c tok : Str) (x y : Int)
    (htok : tok ≠ []) (hna : '\n' ∉ a) (hnb : '\n' ∉ b) (hnc : '\n' ∉ c) (hnt : '\n' ∉ tok)
    (hxa : min x y = (a.length : Int))
    (hyb : max x y = ((a.length + b.length : Nat) : Int))
    (hblen : b.length ≠ tok.length)
    (hpa : ¬ tok <:+ a) (hpc : ¬ tok <+: c) :
    SrcEd.toggleInlineFormatting tok (pre ++ (a ++ b ++ c) :: post)
        [⟨⟨(pre.length : Int), x⟩, ⟨(pre.length : Int), y⟩⟩]
      = (pre ++ (a ++ (tok ++ (b ++ (tok ++ c)))) :: post,
         [⟨⟨(pre.length : Int), x + tok.length⟩, ⟨(pre.length : Int), y + tok.length⟩⟩]) := by
  have htl : 0 < tok.length := List.length_pos.mpr htok
  have horig : (a ++ b ++ c : Str).length = a.length + (b.length + c.length) := by simp
  have hxy2 : (x = (a.length : Int) ∧ y = ((a.length + b.length : Nat) : Int))
      ∨ (y = (a.length : Int) ∧ x = ((a.length + b.length : Nat) : Int)) := by
    rcases le_total x y with h | h
    · refine Or.inl ⟨?_, ?_⟩
      · rw [← hxa, min_eq_left h]
      · rw [← hyb, max_eq_right h]
    · refine Or.inr ⟨?_, ?_⟩
      · rw [← hxa, min_eq_right h]
      · rw [← hyb, max_eq_left h]
  have hpfxval : decide (getRangeStr (pre ++ (a ++ b ++ c) :: post)
      (prefixStartPos ⟨(pre.length : Int), (a.length : Int)⟩ tok.length)
      ⟨(pre.length : Int), (a.length : Int)⟩ = tok) = false := by
    rw [decide_eq_false_iff_not]
    intro hcon
    unfold prefixStartPos at hcon
    dsimp only at hcon
    rw [getRangeStr_sameline _ _ _ _ _ (getLine_at pre post (a ++ b ++ c))] at hcon
    rw [Int.toNat_natCast] at hcon
    rw [show ((a ++ b ++ c : Str)).take a.length = a from by
      rw [List.append_assoc]; exact List.take_left a (b ++ c)] at hcon
    by_cases hfl : (a.length : Int) ≥ (tok.length : Int)
    · rw [if_pos hfl] at hcon
      rw [show ((a.length : Int) - tok.length).toNat = a.length - tok.length by omega] at hcon
      exact hpa (List.suffix_iff_eq_drop.mpr hcon.symm)
    · rw [if_neg hfl] at hcon
      rw [show ((0 : Int)).toNat = 0 from rfl, List.drop_zero] at hcon
      have := congrArg List.length hcon
      omega
  have hsfxval : decide (getRangeStr (pre ++ (a ++ b ++ c) :: post)
      ⟨(pre.length : Int), ((a.length + b.length : Nat) : Int)⟩
      (suffixEndPos ⟨(pre.length : Int), ((a.length + b.length : Nat) : Int)⟩ tok.length
        (((a ++ b ++ c : Str)).length : Int)) = tok) = false := by
    rw [decide_eq_false_iff_not]
    intro hcon
    unfold suffixEndPos at hcon
    dsimp only at hcon
    rw [getRangeStr_sameline _ _ _ _ _ (getLine_at pre post (a ++ b ++ c))] at hcon
    by_cases hcl : ((a.length + b.length : Nat) : Int)
        ≤ ((a ++ b ++ c : Str).length : Int) - tok.length
    · rw [if_pos hcl] at hcon
      rw [show (((a.length + b.length : Nat) : Int) + tok.length).toNat
          = (a ++ b : Str).length + tok.length by simp; omega, Int.toNat_natCast] at hcon
      rw [List.take_append tok.length] at hcon
      rw [show a.length + b.length = ((a ++ b : Str)).length by simp, List.drop_left] at hcon
      exact hpc (List.prefix_iff_eq_take.mpr hcon.symm)
    · rw [if_neg hcl] at hcon
      rw [Int.toNat_natCast, Int.toNat_natCast, List.take_length] at hcon
      rw [show a.length + b.length = ((a ++ b : Str)).length by simp, List.drop_left] at hcon
      have := congrArg List.length hcon
      simp only [List.length_append] at this hcl
      omega
  unfold SrcEd.toggleInlineFormatting
  simp only [SrcEd.tifGo]
  simp only [zero_mul, add_zero]
  rw [fromP_same_line, toP_same_line, hxa, hyb]
  rw [lineLen_at _ _ _ (getLine_at pre post (a ++ b ++ c))]
  rw [hsfxval, hpfxval]
  rw [if_neg (show ¬ false = true by decide), if_neg (show ¬ false = true by decide)]
  dsimp only
  rw [replaceRange_insert (pre ++ (a ++ b ++ c) :: post) tok
    ⟨(pre.length : Int), ((a.length + b.length : Nat) : Int)⟩]
  rw [replaceRange_at_line pre post (a ++ b ++ c) tok _ _
    (nl_nm_append (nl_nm_append hna hnb) hnc) hnt]
  simp only [Int.toNat_natCast]
  rw [show ((a ++ b ++ c : Str)).take (a.length + b.length) = a ++ b from by
    rw [show a.length + b.length = ((a ++ b : Str)).length by simp]
    exact List.take_left _ _]
  rw [show ((a ++ b ++ c : Str)).drop (a.length + b.length) = c from by
    rw [show a.length + b.length = ((a ++ b : Str)).length by simp]
    exact List.drop_left _ _]
  rw [show ((a ++ b : Str) ++ tok ++ c) = a ++ (b ++ tok ++ c) from by simp]
  rw [replaceRange_insert]
  rw [replaceRange_at_line pre post (a ++ (b ++ tok ++ c)) tok _ _
    (nl_nm_append hna (nl_nm_append (nl_nm_append hnb hnt) hnc)) hnt]
  simp only [Int.toNat_natCast]
  rw [List.take_left, List.drop_left]
  have hse : Range.emptySel ⟨⟨(pre.length : Int), x + (tok.length : Int)⟩,
      ⟨(pre.length : Int), y⟩⟩ = false := by
    simp only [Range.emptySel, decide_eq_false_iff_not]
    intro hq
    rw [Pos.mk.injEq] at hq
    rcases hxy2 with ⟨h1, h2⟩ | ⟨h1, h2⟩ <;> omega
  rw [hse, if_neg (show ¬ false = true by decide)]
  simp only [setSelections, List.map_cons, List.map_nil, clipRange]
  rw [clipPos_in_range_mk _ _ _ _ (getLine_at pre post (a ++ tok ++ (b ++ tok ++ c)))
    (by rcases hxy2 with ⟨h1, h2⟩ | ⟨h1, h2⟩ <;> omega)
    (by simp only [List.length_append]
        rcases hxy2 with ⟨h1, h2⟩ | ⟨h1, h2⟩ <;> push_cast <;> omega)]
  rw [clipPos_in_range_mk _ _ _ _ (getLine_at pre post (a ++ tok ++ (b ++ tok ++ c)))
    (by rcases hxy2 with ⟨h1, h2⟩ | ⟨h1, h2⟩ <;> omega)
    (by simp only [List.length_append]
        rcases hxy2 with ⟨h1, h2⟩ | ⟨h1, h2⟩ <;> push_cast <;> omega)]
  simp [List.append_assoc]

end MdSpec

namespace MdSpec

theorem tif_unwrap_step (pre post : List Str) (a b c tok : Str) (x y : Int)
    (htok : tok ≠ []) (hna : '\n' ∉ a) (hnb : '\n' ∉ b) (hnc : '\n' ∉ c) (hnt : '\n' ∉ tok)
    (hxa : min x y = ((a.length + tok.length : Nat) : Int))
    (hyb : max x y = ((a.length + tok.length + b.length : Nat) : Int))
    (hblen : b.length ≠ tok.length) :
    SrcEd.toggleInlineFormatting tok (pre ++ (a ++ (tok ++ (b ++ (tok ++ c)))) :: post)
        [⟨⟨(pre.length : Int), x⟩, ⟨(pre.length : Int), y⟩⟩]
      = (pre ++ (a ++ (b ++ c)) :: post,
         [⟨⟨(pre.length : Int), x - tok.length⟩, ⟨(pre.length : Int), y - tok.length⟩⟩]) := by
  have htl : 0 < tok.length := List.length_pos.mpr htok
  have horig : (a ++ (tok ++ (b ++ (tok ++ c))) : Str).length
      = a.length + (tok.length + (b.length + (tok.length + c.length))) := by simp
  have hxy2 : (x = ((a.length + tok.length : Nat) : Int)
        ∧ y = ((a.length + tok.length + b.length : Nat) : Int))
      ∨ (y = ((a.length + tok.length : Nat) : Int)
        ∧ x = ((a.length + tok.length + b.length : Nat) : Int)) := by
    rcases le_total x y with h | h
    · refine Or.inl ⟨?_, ?_⟩
      · rw [← hxa, min_eq_left h]
      · rw [← hyb, max_eq_right h]
    · refine Or.inr ⟨?_, ?_⟩
      · rw [← hxa, min_eq_right h]
      · rw [← hyb, max_eq_left h]
  have htake1 : (((a.length + tok.length + b.length : Nat) : Int) + tok.length).toNat
      = (((a ++ tok) ++ b : Str)).length + tok.length := by
    simp only [List.length_append]
    omega
  have htake2 : (((a.length + tok.length + b.length : Nat) : Int)).toNat
      = (((a ++ tok) ++ b : Str)).length := by
    simp only [List.length_append]
    omega
  have htake3 : (((a.length + tok.length + b.length : Nat) : Int) + tok.length).toNat
      = ((((a ++ tok) ++ b) ++ tok : Str)).length := by
    simp only [List.length_append]
    omega
  have htake4 : (((a.length + tok.length : Nat) : Int) - tok.length).toNat = a.length := by
    omega
  have htake5 : (((a.length + tok.length : Nat) : Int)).toNat
      = ((a ++ tok : Str)).length := by
    simp only [List.length_append]
    omega
  have hpfxval : decide (getRangeStr (pre ++ (a ++ (tok ++ (b ++ (tok ++ c)))) :: post)
      (prefixStartPos ⟨(pre.length : Int), ((a.length + tok.length : Nat) : Int)⟩ tok.length)
      ⟨(pre.length : Int), ((a.length + tok.length : Nat) : Int)⟩ = tok) = true := by
    rw [decide_eq_true_iff]
    unfold prefixStartPos
    dsimp only
    rw [if_pos (by omega)]
    rw [getRangeStr_sameline _ _ _ _ _ (getLine_at pre post (a ++ (tok ++ (b ++ (tok ++ c)))))]
    rw [htake4, htake5]
    rw [show (a ++ (tok ++ (b ++ (tok ++ c))) : Str) = (a ++ tok) ++ (b ++ (tok ++ c)) from
      by simp]
    rw [List.take_left]
    rw [show ((a ++ tok : Str)).drop a.length = tok from List.drop_left a tok]
  have hsfxval : decide (getRangeStr (pre ++ (a ++ (tok ++ (b ++ (tok ++ c)))) :: post)
      ⟨(pre.length : Int), ((a.length + tok.length + b.length : Nat) : Int)⟩
      (suffixEndPos ⟨(pre.length : Int), ((a.length + tok.length + b.length : Nat) : Int)⟩
        tok.length (((a ++ (tok ++ (b ++ (tok ++ c))) : Str)).length : Int)) = tok)
      = true := by
    rw [decide_eq_true_iff]
    unfold suffixEndPos
    dsimp only
    rw [if_pos (by omega)]
    rw [getRangeStr_sameline _ _ _ _ _ (getLine_at pre post (a ++ (tok ++ (b ++ (tok ++ c)))))]
    rw [htake1, Int.toNat_natCast]
    rw [show (a ++ (tok ++ (b ++ (tok ++ c))) : Str) = ((a ++ tok) ++ b) ++ (tok ++ c) from
      by simp]
    rw [List.take_append tok.length]
    rw [show ((tok ++ c : Str)).take tok.length = tok from List.take_left tok c]
    rw [show a.length + tok.length + b.length = (((a ++ tok) ++ b : Str)).length from by
      simp only [List.length_append]]
    rw [List.drop_left]
  unfold SrcEd.toggleInlineFormatting
  simp only [SrcEd.tifGo]
  simp only [zero_mul, add_zero]
  rw [fromP_same_line, toP_same_line, hxa, hyb]
  rw [lineLen_at _ _ _ (getLine_at pre post (a ++ (tok ++ (b ++ (tok ++ c)))))]
  rw [hsfxval, hpfxval]
  rw [if_pos rfl, if_pos rfl]
  dsimp only
  unfold suffixEndPos prefixStartPos
  dsimp only
  rw [if_pos (by omega), if_pos (by omega)]
  rw [replaceRange_at_line pre post (a ++ (tok ++ (b ++ (tok ++ c)))) []
    ((a.length + tok.length + b.length : Nat) : Int) _
    (nl_nm_append hna (nl_nm_append hnt (nl_nm_append hnb (nl_nm_append hnt hnc))))
    (List.not_mem_nil '\n')]
  rw [htake2, htake3]
  rw [show (a ++ (tok ++ (b ++ (tok ++ c))) : Str) = (((a ++ tok) ++ b) ++ tok) ++ c from
    by simp]
  rw [show (((((a ++ tok) ++ b) ++ tok) ++ c : Str)).take ((((a ++ tok) ++ b : Str)).length)
      = ((a ++ tok) ++ b) from by
    rw [show ((((a ++ tok) ++ b) ++ tok) ++ c : Str) = ((a ++ tok) ++ b) ++ (tok ++ c) from
      by simp]
    exact List.take_left _ _]
  rw [List.drop_left]
  simp only [List.append_nil]
  rw [show (((a ++ tok) ++ b : Str) ++ c) = a ++ (tok ++ (b ++ c)) from by simp]
  rw [replaceRange_at_line pre post (a ++ (tok ++ (b ++ c))) []
    (((a.length + tok.length : Nat) : Int) - tok.length) _
    (nl_nm_append hna (nl_nm_append hnt (nl_nm_append hnb hnc)))
    (List.not_mem_nil '\n')]
  rw [htake4, htake5]
  rw [show ((a ++ (tok ++ (b ++ c)) : Str)).take a.length = a from List.take_left _ _]
  rw [show (a ++ (tok ++ (b ++ c)) : Str) = (a ++ tok) ++ (b ++ c) from by simp]
  rw [List.drop_left]
  simp only [List.append_nil]
  have hse : Range.emptySel ⟨⟨(pre.length : Int), x - (tok.length : Int)⟩,
      ⟨(pre.length : Int), y⟩⟩ = false := by
    simp only [Range.emptySel, decide_eq_false_iff_not]
    intro hq
    rw [Pos.mk.injEq] at hq
    rcases hxy2 with ⟨h1, h2⟩ | ⟨h1, h2⟩ <;> omega
  rw [hse, if_neg (show ¬ false = true by decide)]
  simp only [setSelections, List.map_cons, List.map_nil, clipRange]
  rw [clipPos_in_range_mk _ _ _ _ (getLine_at pre post (a ++ (b ++ c)))
    (by rcases hxy2 with ⟨h1, h2⟩ | ⟨h1, h2⟩ <;> omega)
    (by simp only [List.length_append]
        rcases hxy2 with ⟨h1, h2⟩ | ⟨h1, h2⟩ <;> push_cast <;> omega)]
  rw [clipPos_in_range_mk _ _ _ _ (getLine_at pre post (a ++ (b ++ c)))
    (by rcases hxy2 with ⟨h1, h2⟩ | ⟨h1, h2⟩ <;> omega)
    (by simp only [List.length_append]
        rcases hxy2 with ⟨h1, h2⟩ | ⟨h1, h2⟩ <;> push_cast <;> omega)]

end MdSpec

namespace MdSpec

/-- C4 (amended): on the src edition, for a single single-line selection whose
content is not already wrapped in the token on both sides and whose length
differs from the token length, applying the same inline toggle twice restores
both the buffer and the selection exactly.  (The original claim, quantified
over every buffer and selection list, fails: see the counterexample, where the
already-wrapped content is unwrapped twice.) -/
theorem c4_double_toggle_restores (pre post : List Str) (a b c tok : Str) (x y : Int)
    (htok : tok ≠ []) (hna : '\n' ∉ a) (hnb : '\n' ∉ b) (hnc : '\n' ∉ c) (hnt : '\n' ∉ tok)
    (hxa : min x y = (a.length : Int))
    (hyb : max x y = ((a.length + b.length : Nat) : Int))
    (hblen : b.length ≠ tok.length)
    (hpa : ¬ tok <:+ a) (hpc : ¬ tok <+: c) :
    SrcEd.toggleInlineFormatting tok
        (SrcEd.toggleInlineFormatting tok (pre ++ (a ++ b ++ c) :: post)
          [⟨⟨(pre.length : Int), x⟩, ⟨(pre.length : Int), y⟩⟩]).1
        (SrcEd.toggleInlineFormatting tok (pre ++ (a ++ b ++ c) :: post)
          [⟨⟨(pre.length : Int), x⟩, ⟨(pre.length : Int), y⟩⟩]).2
      = (pre ++ (a ++ b ++ c) :: post,
         [⟨⟨(pre.length : Int), x⟩, ⟨(pre.length : Int), y⟩⟩]) := by
  rw [tif_wrap_step pre post a b c tok x y htok hna hnb hnc hnt hxa hyb hblen hpa hpc]
  dsimp only
  have hxa' : min (x + (tok.length : Int)) (y + (tok.length : Int))
      = ((a.length + tok.length : Nat) : Int) := by
    rw [min_add_add_right, hxa]
    push_cast
    ring
  have hyb' : max (x + (tok.length : Int)) (y + (tok.length : Int))
      = ((a.length + tok.length + b.length : Nat) : Int) := by
    rw [max_add_add_right, hyb]
    push_cast
    ring
  rw [tif_unwrap_step pre post a b c tok _ _ htok hna hnb hnc hnt hxa' hyb' hblen]
  simp [List.append_assoc, add_sub_cancel_right]

end MdSpec

namespace MdSpec

theorem c4_witness :
    SrcEd.toggleInlineFormatting (str "**")
        (SrcEd.toggleInlineFormatting (str "**")
            ([] ++ (str "x" ++ str "abc" ++ str " cd") :: [])
            [⟨⟨((List.length ([] : List Str)) : Int), 1⟩,
              ⟨((List.length ([] : List Str)) : Int), 4⟩⟩]).1
        (SrcEd.toggleInlineFormatting (str "**")
            ([] ++ (str "x" ++ str "abc" ++ str " cd") :: [])
            [⟨⟨((List.length ([] : List Str)) : Int), 1⟩,
              ⟨((List.length ([] : List Str)) : Int), 4⟩⟩]).2
      = ([] ++ (str "x" ++ str "abc" ++ str " cd") :: [],
         [⟨⟨((List.length ([] : List Str)) : Int), 1⟩,
           ⟨((List.length ([] : List Str)) : Int), 4⟩⟩]) :=
  c4_double_toggle_restores [] [] (str "x") (str "abc") (str " cd") (str "**") 1 4
    (by decide) (by decide) (by decide) (by decide) (by decide) (by decide) (by decide)
    (by decide) (by decide) (by decide)

end MdSpec
